import Mathlib

/-!
Verification development for the biostar-central virtual-filesystem gateway
(src/biostar/ftpserver/handler.py) and the specification-ingestion command
(src/engine/management/commands/analysis.py).

Code present under src/ is embedded directly; collaborators that the source
imports but that are not under src/ (the path grammar, the auth and model
layers, the type registry) are modelled from the spec and are marked
"Modelled from the spec" in their doc comments.
-/

namespace Str

/-- Splits a character list at every occurrence of the separator; the
splitting primitive used for virtual paths and for lines. -/
def splitChar (sep : Char) : List Char → List (List Char)
  | [] => [[]]
  | c :: rest =>
    if c == sep then [] :: splitChar sep rest
    else
      match splitChar sep rest with
      | [] => [[c]]
      | s :: ss => (c :: s) :: ss

/-- Splits a string at every occurrence of the separator character. -/
def split (sep : Char) (s : String) : List String :=
  (splitChar sep s.toList).map (fun l => ⟨l⟩)

/-- Joins strings with a separator. -/
def joinWith (sep : String) : List String → String
  | [] => ""
  | [s] => s
  | s :: rest => s ++ sep ++ joinWith sep rest

/-- True when the first list starts with the second. -/
def starts : List Char → List Char → Bool
  | _, [] => true
  | [], _ :: _ => false
  | a :: as, b :: bs => a == b && starts as bs

/-- True when the pattern occurs as a contiguous run. -/
def occurs (sub : List Char) : List Char → Bool
  | [] => starts [] sub
  | c :: rest => starts (c :: rest) sub || occurs sub rest

/-- Doubles every double-quote character (RFC-959 quoting). -/
def dq : List Char → List Char
  | [] => []
  | c :: rest => if c == '"' then c :: c :: dq rest else c :: dq rest

end Str

namespace Ftp

/-- A Project row as the gateway sees it: unique name, owner identity,
primary key. -/
structure Project where
  name : String
  owner : String
  pk : Nat
deriving DecidableEq, Repr

/-- Modelled from the spec: biostar.ftpserver.util.parse_virtual_path is not
under src/. Per the spec (PathGrammar) a path is a sequence of up to four
segments separated by the path separator; segment 1 is the root (candidate
Project name), segment 2 the tab, segment 3 the name, remaining segments are
joined back into the tail; unparseable or empty segments map to empty
values and parsing never fails. -/
def parse_virtual_path (ftppath : String) : String × String × String × String :=
  let segs := (Str.split '/' ftppath).filter (fun s => !(s == ""))
  (segs.getD 0 "", segs.getD 1 "", segs.getD 2 "",
    Str.joinWith "/" (segs.drop 3))

/-- The dynamic value stored in the session field fs.projects. At login it
is a query set over the visible projects; handler.py line 80 replaces it
with an itertools.chain of the old value and a fresh one-element query set.
A chain object does not support the query-set filter operation. -/
inductive ProjView where
  | queryset (ps : List Project)
  | chained (base : ProjView) (extra : List Project)
deriving DecidableEq, Repr

/-- The filter-by-name query the handler performs on fs.projects
(handler.py lines 74 and 87). On a query set it returns the matching rows;
on a chain object the attribute lookup fails, which in the source surfaces
as an unhandled AttributeError. -/
def viewFilter : ProjView → String → Except String (List Project)
  | .queryset ps, n => .ok (ps.filter (fun p => p.name == n))
  | .chained _ _, _ =>
      .error "AttributeError: chain object has no attribute filter"

/-- Membership in the session view, chain links included. -/
def viewMem : ProjView → Project → Bool
  | .queryset ps, p => ps.contains p
  | .chained v extra, p => viewMem v p || extra.contains p

/-- Session-local filesystem state: the visible-project value and the
logged-in user identity. -/
structure FS where
  projects : ProjView
  user : String
deriving DecidableEq, Repr

/-- Modelled from the spec: biostar.engine.auth.create_project is not under
src/. Per the spec the store serializes existence-check-then-create, so
createProject is a single atomic insert-if-absent primitive that either
returns the new Project or reports a conflict when a Project with that name
already exists anywhere in the store. The fresh primary key is the store
size. -/
def create_project (store : List Project) (user name : String) :
    Except String (Project × List Project) :=
  if store.any (fun p => p.name == name) then
    .error "conflict"
  else
    let p : Project := { name := name, owner := user, pk := store.length }
    .ok (p, store ++ [p])

/-- Outcome of one MKD command at the protocol layer. The source can also
fall off the end of ftp_MKD without responding (returns the path only),
and it can raise an exception that no handler catches. -/
inductive Response where
  | r257 (line : String)
  | r550 (msg : String)
  | noResponse
  | fault (msg : String)
deriving DecidableEq, Repr

/-- Result of running one MKD command: the response produced (if any), the
session state afterwards, and the global store afterwards. -/
structure MKDResult where
  response : Response
  fs : FS
  store : List Project
deriving DecidableEq, Repr

/-- The quoting of the created path in the 257 reply (RFC-959 double
quotes doubled), from handler.py line 83; fs2ftp is modelled as the
identity on the virtual path. -/
def mkd257 (path : String) : String :=
  "257 \"" ++ (⟨Str.dq path.toList⟩ : String) ++ "\" directory created."

/-- The branch dispatch of BiostarFTPHandler.ftp_MKD (handler.py lines 60
to 97), over the parsed segments. At depth 1 (root truthy, tab falsy) the
handler filters the session view by name and either responds 550 or
creates the project, rebinds fs.projects to a chain, and responds 257;
otherwise it filters the view again (line 87) and, when a name is present
without a tail, evaluates 1/0 (line 91), an unhandled ZeroDivisionError;
all remaining branches fall through with no response. -/
def mkdCore (store : List Project) (fs : FS)
    (path root_project tab name tail : String) : MKDResult :=
  if root_project ≠ "" ∧ tab = "" then
    match viewFilter fs.projects root_project with
    | .error e => { response := .fault e, fs := fs, store := store }
    | .ok l =>
      if l ≠ [] then
        { response := .r550 "550 Directory already exists.",
          fs := fs, store := store }
      else
        match create_project store fs.user root_project with
        | .error e => { response := .fault e, fs := fs, store := store }
        | .ok (p, store1) =>
            { response := .r257 (mkd257 path),
              fs := { fs with projects := .chained fs.projects [p] },
              store := store1 }
  else
    match viewFilter fs.projects root_project with
    | .error e => { response := .fault e, fs := fs, store := store }
    | .ok _ =>
      if name ≠ "" ∧ tail = "" then
        { response := .fault "ZeroDivisionError", fs := fs, store := store }
      else
        { response := .noResponse, fs := fs, store := store }

/-- Embedding of BiostarFTPHandler.ftp_MKD: parse the virtual path into
its four segments, then run the branch dispatch of mkdCore on them. -/
def ftp_MKD (store : List Project) (fs : FS) (path : String) : MKDResult :=
  match parse_virtual_path path with
  | (root_project, tab, name, tail) => mkdCore store fs path root_project tab name tail

/-- Number of projects in the store carrying a given name. -/
def countName (store : List Project) (n : String) : Nat :=
  (store.filter (fun p => p.name == n)).length

/-- Per-session progress of one depth-1 MKD in the concurrency model:
not started, existence check done (recording whether the name was found),
or finished with a response. -/
inductive Phase where
  | start
  | checked (found : Bool)
  | done (resp : Response)
deriving DecidableEq, Repr

/-- State of two sessions racing a depth-1 MKD on the same name against the
shared store. -/
structure RaceState where
  store : List Project
  ph1 : Phase
  ph2 : Phase
deriving DecidableEq, Repr

/-- Identity of each racing session. -/
def sessUser (sid : Bool) : String := if sid then "alice" else "bob"

/-- One scheduler step of the racing model: advances the chosen session by
one DomainStore interaction of the depth-1 branch of ftp_MKD. The spec
places the suspension points exactly at store reads and writes, so the
branch splits into the existence check (handler.py line 74, a live query
against the store) and the act step (line 75 or line 79: respond 550, or
call create_project and respond 257; a store conflict from create_project
is uncaught in the handler and surfaces as a fault). -/
def raceStep (n : String) (sid : Bool) (s : RaceState) : RaceState :=
  let ph := if sid then s.ph1 else s.ph2
  let put := fun (s : RaceState) (ph : Phase) =>
    if sid then { s with ph1 := ph } else { s with ph2 := ph }
  match ph with
  | .start => put s (.checked (s.store.any (fun p => p.name == n)))
  | .checked true => put s (.done (.r550 "550 Directory already exists."))
  | .checked false =>
    match create_project s.store (sessUser sid) n with
    | .error e => put s (.done (.fault e))
    | .ok (_, store1) =>
        { put s (.done (.r257 (mkd257 ("/" ++ n)))) with store := store1 }
  | .done _ => s

/-- Runs a schedule (a list of session identifiers) over the racing
model. -/
def raceRun (n : String) (sched : List Bool) (s : RaceState) : RaceState :=
  sched.foldl (fun s sid => raceStep n sid s) s

end Ftp

namespace Eng

/-- A top-level object of the parsed specification document: an ordered
list of string attributes. -/
structure HField where
  attrs : List (String × String)
deriving DecidableEq, Repr

/-- The parsed specification document: ordered top-level fields. -/
abbrev HDoc := List (String × HField)

/-- The dictionary get of a field object: first matching attribute. -/
def hget (f : HField) (k : String) : Option String :=
  (f.attrs.find? (fun kv => kv.1 == k)).map (fun kv => kv.2)

/-- The dictionary get of the document: first matching top-level field. -/
def docGet (d : HDoc) (k : String) : Option HField :=
  (d.find? (fun kv => kv.1 == k)).map (fun kv => kv.2)

/-- Modelled from the spec: the usage-classification choices of the model
layer (Analysis.USAGE_CHOICES and Project.USAGE_CHOICES are not under
src/); an enumerated audience tag given as (code, label) pairs, with
representative entries. -/
def USAGE_CHOICES : List (Nat × String) := [(1, "User"), (2, "Admin")]

/-- Modelled from the spec: the default usage code of the model layer. -/
def USER : Nat := 1

/-- The reverse dictionary built at analysis.py line 44: label to code. -/
def usage_map (l : List (Nat × String)) : List (String × Nat) :=
  l.map (fun xy => (xy.2, xy.1))

/-- Dictionary get with a default, over an association list. -/
def dictGet (l : List (String × Nat)) (k : String) (d : Nat) : Nat :=
  ((l.find? (fun kv => kv.1 == k)).map (fun kv => kv.2)).getD d

/-- Modelled from the spec: biostar.tools.const.DATA_TYPES is not under
src/; a fixed registry mapping declared data-type names to classification
codes, with representative entries. -/
def DATA_TYPES : List (String × Nat) := [("reads", 1), ("fasta", 2), ("fastq", 3)]

/-- Registry lookup, as DATA_TYPES.get at analysis.py line 110: none when
the name is not registered. -/
def lookupDT (t : String) : Option Nat :=
  ((DATA_TYPES.find? (fun kv => kv.1 == t)).map (fun kv => kv.2))

/-- The classification stored on a Data record: a registered code, or the
unknown classification for unrecognized type names. -/
inductive DataType where
  | known (code : Nat)
  | unknown
deriving DecidableEq, Repr

/-- A Data record: backing file name, classification, metadata bag. -/
structure DataRec where
  fname : String
  dtype : DataType
  meta : List (String × String)
deriving DecidableEq, Repr

/-- An Analysis record as created by the ingestor. -/
structure Analysis where
  name : String
  summary : String
  text : String
  json_text : String
  template : String
  usage : Nat
deriving DecidableEq, Repr

/-- A Job record bound to its Analysis and to resolved Data records. -/
structure JobRec where
  analysis_name : String
  data_fnames : List String
  usage : Nat
deriving DecidableEq, Repr

/-- A Project row with its owned children. -/
structure ProjectRec where
  pid : Nat
  pname : String
  owner : String
  usage : Nat
  analyses : List Analysis
  datas : List DataRec
  jobs : List JobRec
deriving DecidableEq, Repr

/-- The persistent store: whether a staff user exists, and the project
rows. -/
structure DB where
  admins : Bool
  projects : List ProjectRec
deriving DecidableEq, Repr

/-- An exception raised inside the try block of Command.handle; the except
clause at analysis.py line 116 catches KeyError only, so the class
matters. -/
inductive Exc where
  | keyError (msg : String)
  | other (msg : String)
deriving DecidableEq, Repr

/-- The external filesystem: file name paired with contents. -/
abbrev FSys := List (String × String)

/-- os.path.isfile over the modelled filesystem. -/
def isfile (fsys : FSys) (p : String) : Bool :=
  fsys.any (fun kv => kv.1 == p)

/-- open(p).read() over the modelled filesystem. -/
def fileText (fsys : FSys) (p : String) : String :=
  ((fsys.find? (fun kv => kv.1 == p)).map (fun kv => kv.2)).getD ""

/-- Applies an update to the project row with the given id, leaving every
other row unchanged; the shape of every store write the command performs. -/
def updProj (db : DB) (pid : Nat) (f : ProjectRec → ProjectRec) : DB :=
  { db with projects :=
      db.projects.map (fun p => if p.pid == pid then f p else p) }

/-- The project row with the given id, if any. -/
def getProj (db : DB) (pid : Nat) : Option ProjectRec :=
  db.projects.find? (fun p => p.pid == pid)

/-- True when a space or tab, the whitespace classes of textwrap. -/
def isWsChar (c : Char) : Bool := c == ' ' || c == '\t'

/-- A nonempty line made only of spaces and tabs (the multiline pattern
matching whitespace-only lines in textwrap.dedent). -/
def isWsOnlyLine (l : String) : Bool :=
  !(l == "") && l.toList.all isWsChar

/-- The leading space-and-tab run of a line. -/
def leadingWs (l : String) : String := ⟨l.toList.takeWhile isWsChar⟩

/-- Longest common prefix of two character lists. -/
def cpAux : List Char → List Char → List Char
  | a :: as, b :: bs => if a == b then a :: cpAux as bs else []
  | _, _ => []

/-- Longest common prefix of two strings; the net effect of the margin
update loop of textwrap.dedent. -/
def commonPrefix (a b : String) : String := ⟨cpAux a.toList b.toList⟩

/-- Embedding of Python textwrap.dedent: whitespace-only lines are
normalized to empty, the margin is the longest common leading whitespace
of the lines that have content, and the margin is removed from the start
of every line that begins with it. -/
def dedent (text : String) : String :=
  let lines := (Str.split '\n' text).map (fun l => if isWsOnlyLine l then "" else l)
  let indents := (lines.filter (fun l => !(l == ""))).map leadingWs
  let margin := match indents with
    | [] => ""
    | i :: rest => rest.foldl commonPrefix i
  if margin == "" then
    Str.joinWith "\n" lines
  else
    Str.joinWith "\n"
      (lines.map (fun l =>
        if Str.starts l.toList margin.toList then ⟨l.toList.drop margin.toList.length⟩
        else l))

/-- Modelled from the spec: Project.create_analysis is not under src/. It
creates an Analysis under the target Project with the verbatim
specification text and template; creation fails when the Project does not
exist or an Analysis with that name already exists under it, and the
failure is a store conflict, not a KeyError. -/
def create_analysis (db : DB) (pid : Nat)
    (json_text summary template name text : String) (usage : Nat) :
    Except Exc (DB × Analysis) :=
  match getProj db pid with
  | none => .error (.other "NotFound: project")
  | some proj =>
    if proj.analyses.any (fun a => a.name == name) then
      .error (.other ("AlreadyExists: " ++ name))
    else
      let a : Analysis :=
        { name := name, summary := summary, text := text,
          json_text := json_text, template := template, usage := usage }
      .ok (updProj db pid (fun p => { p with analyses := p.analyses ++ [a] }), a)

/-- The freshly created Data record before its metadata is filled in: a
registry hit is a known classification, a miss (none) is unknown. -/
def plainData (fname : String) (dt : Option Nat) : DataRec :=
  { fname := fname,
    dtype := match dt with | some c => .known c | none => .unknown,
    meta := [] }

/-- The metadata fill a specification field performs on a Data record: the
attributes of the field other than path and data_type become the record
metadata. -/
def metaFill (value : HField) : DataRec → DataRec :=
  fun d => { d with meta := value.attrs.filter (fun kv =>
    !(kv.1 == "path") && !(kv.1 == "data_type")) }

/-- Modelled from the spec: Project.create_data is not under src/. The
backing path must be resolvable at creation time or the record is rejected;
the rejection is a file error, not a KeyError. An unrecognized declared
type (a registry miss, passed in as none) is classified unknown. Returns
the index of the new record among the Project data records, standing for
the object reference Python returns. -/
def create_data (fsys : FSys) (db : DB) (pid : Nat) (fname : String)
    (dt : Option Nat) : Except Exc (DB × Nat) :=
  if isfile fsys fname then
    .ok (updProj db pid (fun p => { p with datas := p.datas ++ [plainData fname dt] }),
         ((getProj db pid).map (fun p => p.datas.length)).getD 0)
  else
    .error (.other ("FileNotFoundError: " ++ fname))

/-- Replaces the element at an index, if present. -/
def listModify {α : Type} (l : List α) (i : Nat) (f : α → α) : List α :=
  match l, i with
  | [], _ => []
  | x :: xs, 0 => f x :: xs
  | x :: xs, Nat.succ j => x :: listModify xs j f

/-- Modelled from the spec: Data.fill_dict is not under src/. It attaches
the remaining attributes of the specification field (those other than path
and data_type) to the Data record as metadata, mutating the record the
preceding create_data returned (here: the record at the returned index). -/
def fill_dict (db : DB) (pid : Nat) (idx : Nat) (value : HField) : DB :=
  updProj db pid (fun p =>
    { p with datas := listModify p.datas idx (metaFill value) })

/-- Modelled from the spec: Analysis.create_job is not under src/. It
creates a Job binding the new Analysis to the full set of resolved Data
records of this ingestion. -/
def create_job (db : DB) (pid : Nat) (aname : String)
    (created : List String) (usage : Nat) : DB :=
  updProj db pid (fun p =>
    { p with jobs := p.jobs ++
        [{ analysis_name := aname, data_fnames := created, usage := usage }] })

/-- The loop at analysis.py lines 107 to 113: every top-level field of the
document is inspected in order; its path attribute is fetched, its declared
data_type is mapped through the registry, and when the path is truthy a
Data record is created and filled from the field; a rejected creation
aborts the loop with the exception, keeping the store mutations made so
far. Returns the store and either the backing names of the created records
or the exception. -/
def ingest_loop (fsys : FSys) (pid : Nat) (db : DB) (created : List String) :
    List (String × HField) → DB × Except Exc (List String)
  | [] => (db, .ok created)
  | (_, value) :: rest =>
    match hget value "path" with
    | none => ingest_loop fsys pid db created rest
    | some p =>
      if p == "" then ingest_loop fsys pid db created rest
      else
        match create_data fsys db pid p ((hget value "data_type").bind lookupDT) with
        | .error e => (db, .error e)
        | .ok (db1, idx) =>
            ingest_loop fsys pid (fill_dict db1 pid idx value)
              (created ++ [p]) rest

/-- The command options after argument parsing (analysis.py lines 14 to
33); an unset path option is the empty string. -/
structure Options where
  add : Bool
  pid : Nat
  json : String
  template : String
  cjob : Bool
  analysis_usage : String
  project_usage : String
deriving DecidableEq, Repr

/-- The observable outcome of one command run: normal return, an error
logged and swallowed, or an uncaught exception. -/
inductive Outcome where
  | ok
  | logged (msg : String)
  | crashed (msg : String)
deriving DecidableEq, Repr

/-- True exactly on the uncaught-exception outcome. -/
def Outcome.isCrashed : Outcome → Bool
  | .crashed _ => true
  | _ => false

/-- The message the outcome carries to the caller. -/
def Outcome.report : Outcome → String
  | .ok => ""
  | .logged m => m
  | .crashed m => m

/-- The settings section of a parsed document, an empty object when
absent (analysis.py json_data.get with an empty-dict default). -/
def settingsOf (d : HDoc) : HField := (docGet d "settings").getD { attrs := [] }

/-- The usage code the command derives at analysis.py lines 46 and 47:
both the analysis usage and the project usage read options analysis_usage
(line 47 reads analysis_usage, not project_usage) through the reversed
choice map, defaulting to the user classification. -/
def optUsage (opts : Options) : Nat :=
  dictGet (usage_map USAGE_CHOICES) opts.analysis_usage USER

/-- The store after the unconditional usage overwrite at analysis.py line
65: the filtered row set for the given project id gets its usage set to
the derived value. -/
def afterUsage (opts : Options) (db : DB) : DB :=
  updProj db opts.pid (fun p => { p with usage := optUsage opts })

/-- The settings lookups of analysis.py lines 95 to 98. -/
def nameOf (doc : HDoc) : String := (hget (settingsOf doc) "name").getD "No name set"

/-- The dedented help text of analysis.py lines 96 and 97. -/
def textOf (doc : HDoc) : String :=
  dedent ((hget (settingsOf doc) "help").getD "No help set")

/-- The summary lookup of analysis.py line 98. -/
def summaryOf (doc : HDoc) : String :=
  (hget (settingsOf doc) "summary").getD "No summary set"

/-- The handling of the ingest-loop result at analysis.py lines 107 to
118: a normal loop ends in create_job and a normal return; a KeyError from
the loop is logged and swallowed by the except clause at line 116; any
other exception escapes as a crash; in both failure cases the store
mutations the loop already made are kept. -/
def jobWrap (opts : Options) (aname : String)
    (r : DB × Except Exc (List String)) : Outcome × DB :=
  match r with
  | (db2, .error (.keyError m)) =>
      (.logged ("processing the analysis: " ++ m), db2)
  | (db2, .error (.other m)) => (.crashed m, db2)
  | (db2, .ok created) =>
      (.ok, create_job db2 opts.pid aname created (optUsage opts))

/-- Embedding of Command.handle (analysis.py lines 36 to 118). The parse
function of the external hjson library is passed in. Both usage values are
derived from the analysis_usage option (optUsage). The usage update at
line 65 runs on the filtered row set before the missing-project check
(afterUsage). The try block from line 79 on catches only KeyError (line
116); any other exception escapes as a crash, keeping the store mutations
made before it. -/
def handle (hloads : String → Except String HDoc) (fsys : FSys)
    (opts : Options) (db : DB) : Outcome × DB :=
  if !db.admins then (.logged "site has no admin users", db)
  else if !opts.add then
    (.logged "command requires at least one action: --add --delete", db)
  else if opts.json == "" || opts.template == "" then
    (.logged "this command requires --json --template to be set", db)
  else
    match getProj db opts.pid with
    | none => (.logged "No project with the given id", afterUsage opts db)
    | some _ =>
      if !(isfile fsys opts.json) then
        (.logged "No file found for --json", afterUsage opts db)
      else if !(isfile fsys opts.template) then
        (.logged "No file found for --template", afterUsage opts db)
      else
        match hloads (fileText fsys opts.json) with
        | .error e =>
            (.logged ("error leading the template: " ++ e), afterUsage opts db)
        | .ok json_data =>
          match create_analysis (afterUsage opts db) opts.pid
              (fileText fsys opts.json) (summaryOf json_data)
              (fileText fsys opts.template) (nameOf json_data)
              (textOf json_data) (optUsage opts) with
          | .error (.keyError m) =>
              (.logged ("processing the analysis: " ++ m), afterUsage opts db)
          | .error (.other m) => (.crashed m, afterUsage opts db)
          | .ok (db1, analysis) =>
            if opts.cjob then
              jobWrap opts analysis.name (ingest_loop fsys opts.pid db1 [] json_data)
            else (.ok, db1)

/-- The truthiness filter Python applies to the fetched path attribute:
none and the empty string are both falsy. -/
def fieldPath (v : HField) : Option String :=
  match hget v "path" with
  | none => none
  | some p => if p == "" then none else some p

/-- The backing paths the loop will try to resolve, in document order. -/
def pathsOf (fields : List (String × HField)) : List String :=
  fields.filterMap (fun kv => fieldPath kv.2)

/-- The Data record the loop produces for a field with a truthy path:
classified through the registry, metadata from the remaining attributes. -/
def recordOf (v : HField) (p : String) : DataRec :=
  metaFill v (plainData p ((hget v "data_type").bind lookupDT))

/-- All Data records a fully successful loop run appends, in order. -/
def recordsOf (fields : List (String × HField)) : List DataRec :=
  fields.filterMap (fun kv => (fieldPath kv.2).map (recordOf kv.2))

/-- The data records of the project row with the given id. -/
def datasOf (db : DB) (pid : Nat) : List DataRec :=
  ((getProj db pid).map (fun p => p.datas)).getD []

/-- The job records of the project row with the given id. -/
def jobsOf (db : DB) (pid : Nat) : List JobRec :=
  ((getProj db pid).map (fun p => p.jobs)).getD []

/-- The analysis records of the project row with the given id. -/
def analysesOf (db : DB) (pid : Nat) : List Analysis :=
  ((getProj db pid).map (fun p => p.analyses)).getD []

/-- The scalar attributes of a project row, the fields the frame claims
are about: id, name, owner, usage. -/
def scalars (p : ProjectRec) : Nat × String × String × Nat :=
  (p.pid, p.pname, p.owner, p.usage)

/-- Retrieval of an Analysis by name under a Project. -/
def findAnalysisByName (db : DB) (pid : Nat) (n : String) : Option Analysis :=
  match getProj db pid with
  | none => none
  | some p => p.analyses.find? (fun a => a.name == n)

/-- Substring occurrence test, used to state what a report mentions. -/
def mentions (s sub : String) : Bool :=
  Str.occurs sub.toList s.toList

/-- The Analysis record a successful ingestion stores: name, summary and
dedented help from the settings section with placeholder defaults, the
verbatim specification and template texts, and the usage derived from the
analysis_usage option. -/
def analysisOf (fsys : FSys) (opts : Options) (doc : HDoc) : Analysis :=
  { name := nameOf doc,
    summary := summaryOf doc,
    text := textOf doc,
    json_text := fileText fsys opts.json,
    template := fileText fsys opts.template,
    usage := optUsage opts }

end Eng

namespace Scen

/-- A fresh session for the concrete gateway scenarios. -/
def aliceFS : Ftp.FS := { projects := .queryset [], user := "alice" }

/-- A one-project store for the concrete ingestion scenarios. -/
def tDB : Eng.DB :=
  { admins := true,
    projects := [{ pid := 1, pname := "P", owner := "adm", usage := 2,
                   analyses := [], datas := [], jobs := [] }] }

/-- The filesystem of the concrete ingestion scenarios; the path
/data/b.txt does not resolve. -/
def tFsys : Eng.FSys :=
  [("spec.hjson", "SPECTEXT"), ("run.sh", "TPL"),
   ("/data/a.txt", "A"), ("/s.txt", "S")]

/-- Options of the concrete ingestion scenarios: add requested, project 1,
job creation on. -/
def tOpts : Eng.Options :=
  { add := true, pid := 1, json := "spec.hjson", template := "run.sh",
    cjob := true, analysis_usage := "User", project_usage := "Admin" }

/-- Document with one resolvable and one unresolvable data path. -/
def c3Doc : Eng.HDoc :=
  [("settings", { attrs := [("name", "X")] }),
   ("f1", { attrs := [("path", "/data/a.txt")] }),
   ("f2", { attrs := [("path", "/data/b.txt")] })]

/-- Document whose settings section itself carries a path attribute, next
to a typed data field and a field without a path. -/
def c7Doc : Eng.HDoc :=
  [("settings", { attrs := [("name", "X"), ("path", "/s.txt")] }),
   ("reads1", { attrs := [("path", "/data/a.txt"), ("data_type", "reads"),
                          ("note", "n1")] }),
   ("nopath", { attrs := [("data_type", "reads")] })]

/-- Document with a full settings section and no data fields. -/
def c5Doc : Eng.HDoc :=
  [("settings", { attrs := [("name", "X"), ("help", "  line1\n  line2"),
                            ("summary", "S")] })]

/-- Document with a data field whose declared type is not registered. -/
def c9Doc : Eng.HDoc :=
  [("settings", { attrs := [("name", "X")] }),
   ("f1", { attrs := [("path", "/data/a.txt"), ("data_type", "weird")] })]

/-- Document with no settings section at all. -/
def c8Doc : Eng.HDoc := [("other", { attrs := [] })]

end Scen

/-! ## Gateway lemmas and claims -/

theorem countName_append (s t : List Ftp.Project) (n : String) :
    Ftp.countName (s ++ t) n = Ftp.countName s n + Ftp.countName t n := by
  simp [Ftp.countName, List.filter_append]

theorem countName_eq_zero {s : List Ftp.Project} {n : String}
    (h : ∀ p ∈ s, p.name ≠ n) : Ftp.countName s n = 0 := by
  unfold Ftp.countName
  rw [List.length_eq_zero, List.filter_eq_nil_iff]
  intro p hp
  simpa using h p hp

theorem countName_uniq :
    ∀ {s : List Ftp.Project} {p : Ftp.Project} {n : String},
      s.Pairwise (fun a b => a.name ≠ b.name) → p ∈ s → p.name = n →
      Ftp.countName s n = 1 := by
  intro s
  induction s with
  | nil => intro p n _ hmem; cases hmem
  | cons q rest ih =>
    intro p n hpw hmem hname
    rw [List.pairwise_cons] at hpw
    cases hmem with
    | head =>
      have hz : Ftp.countName rest n = 0 :=
        countName_eq_zero (fun r hr he => hpw.1 r hr (hname.trans he.symm))
      unfold Ftp.countName at hz ⊢
      simp [List.filter_cons, hname, hz]
    | tail _ hmem1 =>
      have hq : q.name ≠ n := fun he => hpw.1 p hmem1 (he.trans hname.symm)
      have hrest := ih hpw.2 hmem1 hname
      unfold Ftp.countName at hrest ⊢
      simp [List.filter_cons, hq, hrest]

/-- Claim C1: every MKD command is supposed to terminate in exactly one
well-formed protocol response, in particular at depth 3; evaluating the
embedded handler on a depth-3 path (name present, no tail) shows it
instead terminates with the unhandled arithmetic fault written at
handler.py line 91. -/
theorem c1_mkd_depth3_faults :
    (Ftp.ftp_MKD [] Scen.aliceFS "/proj/data/foo").response
      = .fault "ZeroDivisionError" := by
  decide

/-- Claim C2: at depth 1, when no visible Project carries the name, the
handler creates a Project owned by the session user, extends the session
view with it, and answers 257, leaving exactly one Project with that name;
when a visible Project carries the name it answers 550 already-exists and
mutates nothing, and exactly one Project with that name exists. The
hypotheses state that the session view is a subset of the store that is
complete at the requested name, and that store names are unique. -/
theorem c2_mkd_root_create_or_reject
    (store ps : List Ftp.Project) (user n path : String)
    (hparse : Ftp.parse_virtual_path path = (n, "", "", ""))
    (hn : n ≠ "")
    (hsub : ∀ p ∈ ps, p ∈ store)
    (hvis : ∀ p ∈ store, p.name = n → p ∈ ps)
    (huniq : store.Pairwise (fun a b => a.name ≠ b.name)) :
    ((ps.filter (fun p => p.name == n) = []) →
        (Ftp.ftp_MKD store { projects := .queryset ps, user := user } path).response
            = .r257 (Ftp.mkd257 path)
        ∧ (Ftp.ftp_MKD store { projects := .queryset ps, user := user } path).store
            = store ++ [{ name := n, owner := user, pk := store.length }]
        ∧ Ftp.viewMem
            (Ftp.ftp_MKD store { projects := .queryset ps, user := user } path).fs.projects
            { name := n, owner := user, pk := store.length } = true
        ∧ Ftp.countName
            (Ftp.ftp_MKD store { projects := .queryset ps, user := user } path).store n
            = 1)
    ∧ ((ps.filter (fun p => p.name == n) ≠ []) →
        (Ftp.ftp_MKD store { projects := .queryset ps, user := user } path).response
            = .r550 "550 Directory already exists."
        ∧ (Ftp.ftp_MKD store { projects := .queryset ps, user := user } path).store
            = store
        ∧ (Ftp.ftp_MKD store { projects := .queryset ps, user := user } path).fs
            = { projects := .queryset ps, user := user }
        ∧ Ftp.countName store n = 1) := by
  have h0 : Ftp.ftp_MKD store { projects := .queryset ps, user := user } path
      = Ftp.mkdCore store { projects := .queryset ps, user := user } path n "" "" "" := by
    unfold Ftp.ftp_MKD
    rw [hparse]
  constructor
  · intro hA
    have hnone : ∀ p ∈ store, p.name ≠ n := by
      intro p hp hpn
      have hmem : p ∈ ps := hvis p hp hpn
      have : p ∈ ps.filter (fun p => p.name == n) :=
        List.mem_filter.mpr ⟨hmem, by simpa using hpn⟩
      rw [hA] at this
      cases this
    have hany : store.any (fun p => p.name == n) = false := by
      rw [List.any_eq_false]
      intro p hp hbeq
      exact hnone p hp (by simpa using hbeq)
    have hz : Ftp.countName store n = 0 := countName_eq_zero hnone
    have hred : Ftp.mkdCore store { projects := .queryset ps, user := user } path n "" "" ""
        = { response := .r257 (Ftp.mkd257 path),
            fs := { projects := .chained (.queryset ps)
                      [{ name := n, owner := user, pk := store.length }],
                    user := user },
            store := store ++ [{ name := n, owner := user, pk := store.length }] } := by
      unfold Ftp.mkdCore
      rw [if_pos ⟨hn, rfl⟩]
      simp only [Ftp.viewFilter, hA]
      rw [if_neg (fun h => h rfl)]
      unfold Ftp.create_project
      simp [hany]
    rw [h0, hred]
    refine ⟨rfl, rfl, ?_, ?_⟩
    · simp [Ftp.viewMem]
    · rw [countName_append, hz]
      simp [Ftp.countName]
  · intro hB
    have hcount : Ftp.countName store n = 1 := by
      match hm : ps.filter (fun p => p.name == n) with
      | [] => exact absurd hm hB
      | p :: rest =>
        have hp : p ∈ ps.filter (fun p => p.name == n) := by
          rw [hm]; exact List.mem_cons_self p rest
        have hp2 := List.mem_filter.mp hp
        exact countName_uniq huniq (hsub p hp2.1) (by simpa using hp2.2)
    have hred : Ftp.mkdCore store { projects := .queryset ps, user := user } path n "" "" ""
        = { response := .r550 "550 Directory already exists.",
            fs := { projects := .queryset ps, user := user }, store := store } := by
      unfold Ftp.mkdCore
      rw [if_pos ⟨hn, rfl⟩]
      simp only [Ftp.viewFilter]
      rw [if_pos hB]
    rw [h0, hred]
    exact ⟨rfl, rfl, rfl, hcount⟩

/-- Witness for claim C2: in an empty store a depth-1 MKD for the name
demo answers 257, stores exactly the new project, and the session view
contains it. -/
theorem c2_mkd_root_witness :
    (Ftp.ftp_MKD [] { projects := .queryset [], user := "alice" } "/demo").response
        = .r257 (Ftp.mkd257 "/demo")
    ∧ (Ftp.ftp_MKD [] { projects := .queryset [], user := "alice" } "/demo").store
        = [{ name := "demo", owner := "alice", pk := 0 }]
    ∧ Ftp.viewMem
        (Ftp.ftp_MKD [] { projects := .queryset [], user := "alice" } "/demo").fs.projects
        { name := "demo", owner := "alice", pk := 0 } = true
    ∧ Ftp.countName
        (Ftp.ftp_MKD [] { projects := .queryset [], user := "alice" } "/demo").store "demo"
        = 1 := by
  have h := (c2_mkd_root_create_or_reject [] [] "alice" "demo" "/demo"
    (by decide) (by decide) (by simp) (by simp) (by simp)).1 rfl
  simpa using h

/-- Claim C4: racing two depth-1 MKD commands on the same name, the
schedule that lets both sessions pass the existence check before either
creates makes the first session succeed while the second terminates in an
unhandled store-conflict fault, not in the already-exists rejection the
claim requires; the handler performs check-then-create with no enclosing
exclusive scope. -/
theorem c4_race_two_checks_then_acts :
    (Ftp.raceRun "proj" [true, false, true, false]
        { store := [], ph1 := .start, ph2 := .start }).ph1
      = .done (.r257 (Ftp.mkd257 "/proj"))
    ∧ (Ftp.raceRun "proj" [true, false, true, false]
        { store := [], ph1 := .start, ph2 := .start }).ph2
      = .done (.fault "conflict")
    ∧ ¬ (Ftp.raceRun "proj" [true, false, true, false]
          { store := [], ph1 := .start, ph2 := .start }).ph2
        = .done (.r550 "550 Directory already exists.") := by
  refine ⟨by decide, by decide, by decide⟩

/-- Claim C6: after a session creates a Project, its visible-project value
is an iterator chain that no longer supports the filter query; the very
next MKD in the same session terminates in an unhandled AttributeError
instead of observing the new Project through the query interface. -/
theorem c6_view_chain_breaks_queries :
    (Ftp.ftp_MKD [] Scen.aliceFS "/p1").response = .r257 (Ftp.mkd257 "/p1")
    ∧ (Ftp.ftp_MKD (Ftp.ftp_MKD [] Scen.aliceFS "/p1").store
        (Ftp.ftp_MKD [] Scen.aliceFS "/p1").fs "/p2").response
      = .fault "AttributeError: chain object has no attribute filter" := by
  refine ⟨by decide, by decide⟩

/-! ## Ingestor lemmas -/

theorem find_map_upd (l : List Eng.ProjectRec) (pid : Nat)
    (f : Eng.ProjectRec → Eng.ProjectRec) (hf : ∀ p, (f p).pid = p.pid) :
    (l.map (fun p => if p.pid == pid then f p else p)).find? (fun p => p.pid == pid)
      = (l.find? (fun p => p.pid == pid)).map f := by
  induction l with
  | nil => rfl
  | cons q rest ih =>
    simp only [List.map_cons, List.find?_cons]
    by_cases hq : (q.pid == pid) = true
    · rw [if_pos hq]
      have hfq : ((f q).pid == pid) = true := by rw [hf q]; exact hq
      rw [hfq, hq]
      rfl
    · rw [if_neg hq]
      have hq2 : (q.pid == pid) = false := by
        cases h : (q.pid == pid) with
        | true => exact absurd h hq
        | false => rfl
      rw [hq2]
      exact ih

theorem getProj_updProj (db : Eng.DB) (pid : Nat)
    (f : Eng.ProjectRec → Eng.ProjectRec) (hf : ∀ p, (f p).pid = p.pid) :
    Eng.getProj (Eng.updProj db pid f) pid = (Eng.getProj db pid).map f := by
  unfold Eng.getProj Eng.updProj
  exact find_map_upd db.projects pid f hf

theorem map_scalars_upd (l : List Eng.ProjectRec) (pid : Nat)
    (f : Eng.ProjectRec → Eng.ProjectRec)
    (hs : ∀ p, Eng.scalars (f p) = Eng.scalars p) :
    (l.map (fun p => if p.pid == pid then f p else p)).map Eng.scalars
      = l.map Eng.scalars := by
  induction l with
  | nil => rfl
  | cons q rest ih =>
    simp only [List.map_cons]
    by_cases hq : (q.pid == pid) = true
    · rw [if_pos hq, hs q, ih]
    · rw [if_neg hq, ih]

theorem scalars_updProj (db : Eng.DB) (pid : Nat)
    (f : Eng.ProjectRec → Eng.ProjectRec)
    (hs : ∀ p, Eng.scalars (f p) = Eng.scalars p) :
    (Eng.updProj db pid f).projects.map Eng.scalars
      = db.projects.map Eng.scalars := by
  unfold Eng.updProj
  exact map_scalars_upd db.projects pid f hs

theorem jobsOf_updProj (db : Eng.DB) (pid : Nat)
    (f : Eng.ProjectRec → Eng.ProjectRec) (hf : ∀ p, (f p).pid = p.pid)
    (hj : ∀ p, (f p).jobs = p.jobs) :
    Eng.jobsOf (Eng.updProj db pid f) pid = Eng.jobsOf db pid := by
  unfold Eng.jobsOf
  rw [getProj_updProj db pid f hf]
  cases Eng.getProj db pid with
  | none => rfl
  | some p => simp [hj p]

theorem all_false_of_any_false {α : Type} {l : List α} {pr : α → Bool}
    (h : l.any pr = false) : ∀ x ∈ l, pr x = false := by
  intro x hx
  cases h2 : pr x with
  | false => rfl
  | true =>
    have hT : l.any pr = true := List.any_eq_true.mpr ⟨x, hx, h2⟩
    rw [h] at hT
    cases hT

theorem find_append_last {α : Type} (l : List α) (a : α) (pr : α → Bool)
    (h : ∀ x ∈ l, pr x = false) (ha : pr a = true) :
    (l ++ [a]).find? pr = some a := by
  induction l with
  | nil =>
    simp only [List.nil_append, List.find?_cons, ha]
  | cons x rest ih =>
    have hx := h x (List.mem_cons_self x rest)
    simp only [List.cons_append, List.find?_cons, hx]
    exact ih (fun y hy => h y (List.mem_cons_of_mem x hy))

theorem handle_reach
    (hloads : String → Except String Eng.HDoc) (fsys : Eng.FSys)
    (opts : Eng.Options) (db : Eng.DB) (proj : Eng.ProjectRec) (doc : Eng.HDoc)
    (hadm : db.admins = true) (hadd : opts.add = true)
    (hjson : (opts.json == "") = false) (htmpl : (opts.template == "") = false)
    (hproj : Eng.getProj db opts.pid = some proj)
    (hf1 : Eng.isfile fsys opts.json = true)
    (hf2 : Eng.isfile fsys opts.template = true)
    (hparse : hloads (Eng.fileText fsys opts.json) = .ok doc) :
    Eng.handle hloads fsys opts db =
      match Eng.create_analysis (Eng.afterUsage opts db) opts.pid
          (Eng.fileText fsys opts.json) (Eng.summaryOf doc)
          (Eng.fileText fsys opts.template) (Eng.nameOf doc)
          (Eng.textOf doc) (Eng.optUsage opts) with
      | .error (.keyError m) =>
          (.logged ("processing the analysis: " ++ m), Eng.afterUsage opts db)
      | .error (.other m) => (.crashed m, Eng.afterUsage opts db)
      | .ok (db1, analysis) =>
        if opts.cjob then
          Eng.jobWrap opts analysis.name (Eng.ingest_loop fsys opts.pid db1 [] doc)
        else (.ok, db1) := by
  unfold Eng.handle
  rw [hadm, hadd, hjson, htmpl, hproj, hf1, hf2, hparse]
  rfl

theorem create_analysis_reduce
    (db : Eng.DB) (pid : Nat) (jt s tpl nm tx : String) (u : Nat)
    (proj : Eng.ProjectRec)
    (hproj : Eng.getProj db pid = some proj)
    (hnoconf : proj.analyses.any (fun a => a.name == nm) = false) :
    Eng.create_analysis db pid jt s tpl nm tx u =
      .ok (Eng.updProj db pid (fun p =>
            { p with analyses := p.analyses ++
                [{ name := nm, summary := s, text := tx, json_text := jt,
                   template := tpl, usage := u }] }),
           { name := nm, summary := s, text := tx, json_text := jt,
             template := tpl, usage := u }) := by
  unfold Eng.create_analysis
  simp only [hproj]
  rw [hnoconf]
  rfl

theorem handle_nojob_eq
    (hloads : String → Except String Eng.HDoc) (fsys : Eng.FSys)
    (opts : Eng.Options) (db : Eng.DB) (proj : Eng.ProjectRec) (doc : Eng.HDoc)
    (hadm : db.admins = true) (hadd : opts.add = true)
    (hjson : (opts.json == "") = false) (htmpl : (opts.template == "") = false)
    (hproj : Eng.getProj db opts.pid = some proj)
    (hf1 : Eng.isfile fsys opts.json = true)
    (hf2 : Eng.isfile fsys opts.template = true)
    (hparse : hloads (Eng.fileText fsys opts.json) = .ok doc)
    (hnoconf : proj.analyses.any (fun a => a.name == Eng.nameOf doc) = false)
    (hcjob : opts.cjob = false) :
    Eng.handle hloads fsys opts db
      = (.ok, Eng.updProj (Eng.afterUsage opts db) opts.pid
          (fun p => { p with analyses :=
              p.analyses ++ [Eng.analysisOf fsys opts doc] })) := by
  have hpr2 : Eng.getProj (Eng.afterUsage opts db) opts.pid
      = some { proj with usage := Eng.optUsage opts } := by
    unfold Eng.afterUsage
    rw [getProj_updProj db opts.pid
      (fun p => { p with usage := Eng.optUsage opts }) (fun p => rfl), hproj]
    rfl
  have hnc2 : ({ proj with usage := Eng.optUsage opts } : Eng.ProjectRec).analyses.any
      (fun a => a.name == Eng.nameOf doc) = false := hnoconf
  rw [handle_reach hloads fsys opts db proj doc hadm hadd hjson htmpl hproj hf1 hf2 hparse]
  rw [create_analysis_reduce (Eng.afterUsage opts db) opts.pid
    (Eng.fileText fsys opts.json) (Eng.summaryOf doc)
    (Eng.fileText fsys opts.template) (Eng.nameOf doc) (Eng.textOf doc)
    (Eng.optUsage opts) { proj with usage := Eng.optUsage opts } hpr2 hnc2]
  rw [hcjob]
  rfl

theorem findAnalysis_after_append
    (opts : Eng.Options) (db : Eng.DB) (proj : Eng.ProjectRec)
    (a : Eng.Analysis) (nm : String)
    (hproj : Eng.getProj db opts.pid = some proj)
    (hnoconf : proj.analyses.any (fun x => x.name == nm) = false)
    (ha : (a.name == nm) = true) :
    Eng.findAnalysisByName
      (Eng.updProj (Eng.afterUsage opts db) opts.pid
        (fun p => { p with analyses := p.analyses ++ [a] })) opts.pid nm
      = some a := by
  unfold Eng.findAnalysisByName
  rw [getProj_updProj (Eng.afterUsage opts db) opts.pid
    (fun p => { p with analyses := p.analyses ++ [a] }) (fun p => rfl)]
  unfold Eng.afterUsage
  rw [getProj_updProj db opts.pid
    (fun p => { p with usage := Eng.optUsage opts }) (fun p => rfl), hproj]
  show (proj.analyses ++ [a]).find? (fun x => x.name == nm) = some a
  exact find_append_last _ _ _ (all_false_of_any_false hnoconf) ha

/-- Claim C8: for every parsed specification document, ingestion stores an
Analysis whose name, help text, and summary come from the settings
section, each defaulting to a placeholder when the key or the whole
settings section is absent, with the help text dedented before storage;
absence is never fatal (the run returns normally). -/
theorem c8_settings_defaults
    (hloads : String → Except String Eng.HDoc) (fsys : Eng.FSys)
    (opts : Eng.Options) (db : Eng.DB) (proj : Eng.ProjectRec) (doc : Eng.HDoc)
    (hadm : db.admins = true) (hadd : opts.add = true)
    (hjson : (opts.json == "") = false) (htmpl : (opts.template == "") = false)
    (hproj : Eng.getProj db opts.pid = some proj)
    (hf1 : Eng.isfile fsys opts.json = true)
    (hf2 : Eng.isfile fsys opts.template = true)
    (hparse : hloads (Eng.fileText fsys opts.json) = .ok doc)
    (hnoconf : proj.analyses.any (fun a => a.name == Eng.nameOf doc) = false)
    (hcjob : opts.cjob = false) :
    (Eng.handle hloads fsys opts db).1 = .ok
    ∧ Eng.findAnalysisByName (Eng.handle hloads fsys opts db).2 opts.pid
        (Eng.nameOf doc) = some (Eng.analysisOf fsys opts doc)
    ∧ (Eng.analysisOf fsys opts doc).name
        = (Eng.hget (Eng.settingsOf doc) "name").getD "No name set"
    ∧ (Eng.analysisOf fsys opts doc).text
        = Eng.dedent ((Eng.hget (Eng.settingsOf doc) "help").getD "No help set")
    ∧ (Eng.analysisOf fsys opts doc).summary
        = (Eng.hget (Eng.settingsOf doc) "summary").getD "No summary set" := by
  have he := handle_nojob_eq hloads fsys opts db proj doc hadm hadd hjson htmpl
    hproj hf1 hf2 hparse hnoconf hcjob
  refine ⟨by rw [he], ?_, rfl, rfl, rfl⟩
  rw [he]
  exact findAnalysis_after_append opts db proj (Eng.analysisOf fsys opts doc)
    (Eng.nameOf doc) hproj hnoconf (by simp [Eng.analysisOf])

/-- Witness for claim C8: a document with no settings section at all
ingests normally and stores the three placeholder values. -/
theorem c8_settings_defaults_witness :
    (Eng.handle (fun _ => .ok Scen.c8Doc) Scen.tFsys
        { Scen.tOpts with cjob := false } Scen.tDB).1 = .ok
    ∧ Eng.findAnalysisByName
        (Eng.handle (fun _ => .ok Scen.c8Doc) Scen.tFsys
          { Scen.tOpts with cjob := false } Scen.tDB).2 1 "No name set"
        = some { name := "No name set", summary := "No summary set",
                 text := "No help set", json_text := "SPECTEXT",
                 template := "TPL", usage := 1 } := by
  have h := c8_settings_defaults (fun _ => .ok Scen.c8Doc) Scen.tFsys
    { Scen.tOpts with cjob := false } Scen.tDB
    { pid := 1, pname := "P", owner := "adm", usage := 2,
      analyses := [], datas := [], jobs := [] } Scen.c8Doc
    rfl rfl rfl rfl rfl rfl rfl rfl rfl rfl
  exact ⟨h.1, h.2.1⟩

/-- Claim C5: ingesting a specification document whose settings name is X
stores an Analysis retrievable under the target Project by the name X, and
the specification text stored on it is byte-for-byte the input text. -/
theorem c5_roundtrip
    (hloads : String → Except String Eng.HDoc) (fsys : Eng.FSys)
    (opts : Eng.Options) (db : Eng.DB) (proj : Eng.ProjectRec) (doc : Eng.HDoc)
    (hadm : db.admins = true) (hadd : opts.add = true)
    (hjson : (opts.json == "") = false) (htmpl : (opts.template == "") = false)
    (hproj : Eng.getProj db opts.pid = some proj)
    (hf1 : Eng.isfile fsys opts.json = true)
    (hf2 : Eng.isfile fsys opts.template = true)
    (hparse : hloads (Eng.fileText fsys opts.json) = .ok doc)
    (hname : Eng.hget (Eng.settingsOf doc) "name" = some "X")
    (hnoconf : proj.analyses.any (fun a => a.name == "X") = false)
    (hcjob : opts.cjob = false) :
    (Eng.handle hloads fsys opts db).1 = .ok
    ∧ Eng.findAnalysisByName (Eng.handle hloads fsys opts db).2 opts.pid "X"
        = some (Eng.analysisOf fsys opts doc)
    ∧ (Eng.analysisOf fsys opts doc).name = "X"
    ∧ (Eng.analysisOf fsys opts doc).json_text = Eng.fileText fsys opts.json := by
  have hnm : Eng.nameOf doc = "X" := by
    unfold Eng.nameOf
    rw [hname]
    rfl
  have hnoconf2 : proj.analyses.any (fun a => a.name == Eng.nameOf doc) = false := by
    rw [hnm]
    exact hnoconf
  have he := handle_nojob_eq hloads fsys opts db proj doc hadm hadd hjson htmpl
    hproj hf1 hf2 hparse hnoconf2 hcjob
  refine ⟨by rw [he], ?_, by simpa [Eng.analysisOf] using hnm, rfl⟩
  rw [he]
  exact findAnalysis_after_append opts db proj (Eng.analysisOf fsys opts doc)
    "X" hproj hnoconf (by simp [Eng.analysisOf, hnm])

/-- Witness for claim C5: the concrete document with settings name X
round-trips, storing the verbatim specification text. -/
theorem c5_roundtrip_witness :
    (Eng.handle (fun _ => .ok Scen.c5Doc) Scen.tFsys
        { Scen.tOpts with cjob := false } Scen.tDB).1 = .ok
    ∧ Eng.findAnalysisByName
        (Eng.handle (fun _ => .ok Scen.c5Doc) Scen.tFsys
          { Scen.tOpts with cjob := false } Scen.tDB).2 1 "X"
        = some { name := "X", summary := "S", text := "line1\nline2",
                 json_text := "SPECTEXT", template := "TPL", usage := 1 } := by
  have h := c5_roundtrip (fun _ => .ok Scen.c5Doc) Scen.tFsys
    { Scen.tOpts with cjob := false } Scen.tDB
    { pid := 1, pname := "P", owner := "adm", usage := 2,
      analyses := [], datas := [], jobs := [] } Scen.c5Doc
    rfl rfl rfl rfl rfl rfl rfl rfl rfl rfl rfl
  exact ⟨h.1, h.2.1⟩

theorem map_upd_comp (l : List Eng.ProjectRec) (pid : Nat)
    (f g : Eng.ProjectRec → Eng.ProjectRec) (hf : ∀ p, (f p).pid = p.pid) :
    (l.map (fun p => if p.pid == pid then f p else p)).map
        (fun p => if p.pid == pid then g p else p)
      = l.map (fun p => if p.pid == pid then g (f p) else p) := by
  induction l with
  | nil => rfl
  | cons q rest ih =>
    simp only [List.map_cons]
    by_cases hq : (q.pid == pid) = true
    · have hfq : ((f q).pid == pid) = true := by rw [hf q]; exact hq
      rw [if_pos hq, if_pos hfq, if_pos hq, ih]
    · rw [if_neg hq, if_neg hq, if_neg hq, ih]

theorem updProj_comp (db : Eng.DB) (pid : Nat)
    (f g : Eng.ProjectRec → Eng.ProjectRec) (hf : ∀ p, (f p).pid = p.pid) :
    Eng.updProj (Eng.updProj db pid f) pid g
      = Eng.updProj db pid (fun p => g (f p)) := by
  unfold Eng.updProj
  congr 1
  exact map_upd_comp db.projects pid f g hf

theorem map_upd_congr (l : List Eng.ProjectRec) (pid : Nat)
    (f g : Eng.ProjectRec → Eng.ProjectRec)
    (h : ∀ p ∈ l, (p.pid == pid) = true → f p = g p) :
    l.map (fun p => if p.pid == pid then f p else p)
      = l.map (fun p => if p.pid == pid then g p else p) := by
  induction l with
  | nil => rfl
  | cons q rest ih =>
    simp only [List.map_cons]
    have htl := ih (fun p hp => h p (List.mem_cons_of_mem q hp))
    by_cases hq : (q.pid == pid) = true
    · rw [if_pos hq, if_pos hq, h q (List.mem_cons_self q rest) hq, htl]
    · rw [if_neg hq, if_neg hq, htl]

theorem updProj_congr (db : Eng.DB) (pid : Nat)
    (f g : Eng.ProjectRec → Eng.ProjectRec)
    (h : ∀ p ∈ db.projects, (p.pid == pid) = true → f p = g p) :
    Eng.updProj db pid f = Eng.updProj db pid g := by
  unfold Eng.updProj
  congr 1
  exact map_upd_congr db.projects pid f g h

theorem updProj_id (db : Eng.DB) (pid : Nat) :
    Eng.updProj db pid (fun p => p) = db := by
  cases db with
  | mk admins projects => simp [Eng.updProj, ite_self]

theorem pids_map_upd (l : List Eng.ProjectRec) (pid : Nat)
    (f : Eng.ProjectRec → Eng.ProjectRec) (hf : ∀ p, (f p).pid = p.pid) :
    (l.map (fun p => if p.pid == pid then f p else p)).map (fun p => p.pid)
      = l.map (fun p => p.pid) := by
  induction l with
  | nil => rfl
  | cons q rest ih =>
    simp only [List.map_cons]
    by_cases hq : (q.pid == pid) = true
    · rw [if_pos hq, hf q, ih]
    · rw [if_neg hq, ih]

theorem mem_pid_unique (l : List Eng.ProjectRec) (pid : Nat)
    (proj : Eng.ProjectRec)
    (hnd : (l.map (fun p => p.pid)).Nodup)
    (hfind : l.find? (fun p => p.pid == pid) = some proj) :
    ∀ p ∈ l, (p.pid == pid) = true → p = proj := by
  induction l with
  | nil => intro p hp; cases hp
  | cons q rest ih =>
    intro p hp hpid
    rw [List.map_cons, List.nodup_cons] at hnd
    rw [List.find?_cons] at hfind
    cases hq : (q.pid == pid) with
    | true =>
      rw [hq] at hfind
      have hqp : q = proj := by
        have h2 : some q = some proj := hfind
        injection h2
      cases hp with
      | head => exact hqp
      | tail _ hp1 =>
        exfalso
        apply hnd.1
        have hppid : p.pid = pid := by simpa using hpid
        have hqpid : q.pid = pid := by simpa using hq
        rw [hqpid, ← hppid]
        exact List.mem_map.mpr ⟨p, hp1, rfl⟩
    | false =>
      rw [hq] at hfind
      cases hp with
      | head => rw [hpid] at hq; cases hq
      | tail _ hp1 => exact ih hnd.2 hfind p hp1 hpid

theorem listModify_append {α : Type} (l : List α) (a : α) (f : α → α) :
    Eng.listModify (l ++ [a]) l.length f = l ++ [f a] := by
  induction l with
  | nil => rfl
  | cons x rest ih =>
    show x :: Eng.listModify (rest ++ [a]) rest.length f = x :: (rest ++ [f a])
    rw [ih]

theorem create_data_reduce (fsys : Eng.FSys) (db : Eng.DB) (pid : Nat)
    (fname : String) (dt : Option Nat) (proj : Eng.ProjectRec)
    (hproj : Eng.getProj db pid = some proj)
    (hfile : Eng.isfile fsys fname = true) :
    Eng.create_data fsys db pid fname dt
      = .ok (Eng.updProj db pid (fun p =>
            { p with datas := p.datas ++ [Eng.plainData fname dt] }),
           proj.datas.length) := by
  unfold Eng.create_data
  rw [hfile, hproj]
  rfl

theorem ingest_loop_ok (fsys : Eng.FSys) (pid : Nat) :
    ∀ (fields : List (String × Eng.HField)) (db : Eng.DB)
      (created : List String) (proj : Eng.ProjectRec),
      (db.projects.map (fun p => p.pid)).Nodup →
      Eng.getProj db pid = some proj →
      (∀ q ∈ Eng.pathsOf fields, Eng.isfile fsys q = true) →
      Eng.ingest_loop fsys pid db created fields
        = (Eng.updProj db pid (fun p =>
            { p with datas := p.datas ++ Eng.recordsOf fields }),
           .ok (created ++ Eng.pathsOf fields)) := by
  intro fields
  induction fields with
  | nil =>
    intro db created proj hnd hproj hres
    have h2 : ∀ p : Eng.ProjectRec,
        ({ p with datas := p.datas ++ Eng.recordsOf ([] : List (String × Eng.HField)) }
          : Eng.ProjectRec) = p := by
      intro p
      show ({ p with datas := p.datas ++ [] } : Eng.ProjectRec) = p
      rw [List.append_nil]
    have h1 : Eng.updProj db pid (fun p =>
        { p with datas := p.datas ++ Eng.recordsOf ([] : List (String × Eng.HField)) }) = db := by
      rw [updProj_congr db pid _ (fun p => p) (fun p _ _ => h2 p)]
      exact updProj_id db pid
    show (db, Except.ok created)
      = (Eng.updProj db pid (fun p =>
          { p with datas := p.datas ++ Eng.recordsOf ([] : List (String × Eng.HField)) }),
         Except.ok (created ++ []))
    rw [h1, List.append_nil]
  | cons kv rest ih =>
    obtain ⟨k, v⟩ := kv
    intro db created proj hnd hproj hres
    cases hp : Eng.hget v "path" with
    | none =>
      have hfp : Eng.fieldPath v = none := by
        unfold Eng.fieldPath
        rw [hp]
      have hpc : Eng.pathsOf ((k, v) :: rest) = Eng.pathsOf rest := by
        unfold Eng.pathsOf
        simp [List.filterMap_cons, hfp]
      have hrc : Eng.recordsOf ((k, v) :: rest) = Eng.recordsOf rest := by
        unfold Eng.recordsOf
        simp [List.filterMap_cons, hfp]
      have hloop : Eng.ingest_loop fsys pid db created ((k, v) :: rest)
          = Eng.ingest_loop fsys pid db created rest := by
        simp only [Eng.ingest_loop, hp]
      rw [hloop, hpc, hrc]
      exact ih db created proj hnd hproj
        (fun q hq => hres q (by rw [hpc]; exact hq))
    | some pth =>
      by_cases hpe : (pth == "") = true
      · have hfp : Eng.fieldPath v = none := by
          unfold Eng.fieldPath
          simp only [hp]
          rw [if_pos hpe]
        have hpc : Eng.pathsOf ((k, v) :: rest) = Eng.pathsOf rest := by
          unfold Eng.pathsOf
          simp [List.filterMap_cons, hfp]
        have hrc : Eng.recordsOf ((k, v) :: rest) = Eng.recordsOf rest := by
          unfold Eng.recordsOf
          simp [List.filterMap_cons, hfp]
        have hloop : Eng.ingest_loop fsys pid db created ((k, v) :: rest)
            = Eng.ingest_loop fsys pid db created rest := by
          simp only [Eng.ingest_loop, hp]
          rw [if_pos hpe]
        rw [hloop, hpc, hrc]
        exact ih db created proj hnd hproj
          (fun q hq => hres q (by rw [hpc]; exact hq))
      · have hfp : Eng.fieldPath v = some pth := by
          unfold Eng.fieldPath
          simp only [hp]
          rw [if_neg hpe]
        have hpc : Eng.pathsOf ((k, v) :: rest) = pth :: Eng.pathsOf rest := by
          unfold Eng.pathsOf
          simp [List.filterMap_cons, hfp]
        have hrc : Eng.recordsOf ((k, v) :: rest)
            = Eng.recordOf v pth :: Eng.recordsOf rest := by
          unfold Eng.recordsOf
          simp [List.filterMap_cons, hfp]
        have hfile : Eng.isfile fsys pth = true := by
          apply hres
          rw [hpc]
          exact List.mem_cons_self _ _
        have hstep : Eng.ingest_loop fsys pid db created ((k, v) :: rest)
            = Eng.ingest_loop fsys pid
                (Eng.fill_dict
                  (Eng.updProj db pid (fun p =>
                    { p with datas := p.datas ++
                        [Eng.plainData pth ((Eng.hget v "data_type").bind Eng.lookupDT)] }))
                  pid proj.datas.length v)
                (created ++ [pth]) rest := by
          simp only [Eng.ingest_loop, hp]
          rw [if_neg hpe,
            create_data_reduce fsys db pid pth
              ((Eng.hget v "data_type").bind Eng.lookupDT) proj hproj hfile]
        have hone : Eng.fill_dict
              (Eng.updProj db pid (fun p =>
                { p with datas := p.datas ++
                    [Eng.plainData pth ((Eng.hget v "data_type").bind Eng.lookupDT)] }))
              pid proj.datas.length v
            = Eng.updProj db pid (fun p =>
                { p with datas := p.datas ++ [Eng.recordOf v pth] }) := by
          unfold Eng.fill_dict
          rw [updProj_comp db pid
            (fun p =>
              { p with datas := p.datas ++
                  [Eng.plainData pth ((Eng.hget v "data_type").bind Eng.lookupDT)] })
            (fun p =>
              { p with datas := Eng.listModify p.datas proj.datas.length (Eng.metaFill v) })
            (fun p => rfl)]
          apply updProj_congr
          intro p hpmem hppid
          have hpp : p = proj :=
            mem_pid_unique db.projects pid proj hnd hproj p hpmem hppid
          rw [hpp]
          show ({ proj with
                  datas := Eng.listModify
                    (proj.datas ++
                      [Eng.plainData pth ((Eng.hget v "data_type").bind Eng.lookupDT)])
                    proj.datas.length (Eng.metaFill v) }
              : Eng.ProjectRec)
            = { proj with datas := proj.datas ++ [Eng.recordOf v pth] }
          rw [listModify_append]
          rfl
        have hnd2 : ((Eng.updProj db pid (fun p =>
            { p with datas := p.datas ++ [Eng.recordOf v pth] })).projects.map
              (fun p => p.pid)).Nodup := by
          show ((db.projects.map (fun p =>
            if p.pid == pid then
              { p with datas := p.datas ++ [Eng.recordOf v pth] } else p)).map
                (fun p => p.pid)).Nodup
          rw [pids_map_upd db.projects pid
            (fun p => { p with datas := p.datas ++ [Eng.recordOf v pth] })
            (fun p => rfl)]
          exact hnd
        have hproj2 : Eng.getProj (Eng.updProj db pid (fun p =>
              { p with datas := p.datas ++ [Eng.recordOf v pth] })) pid
            = some { proj with datas := proj.datas ++ [Eng.recordOf v pth] } := by
          rw [getProj_updProj db pid
            (fun p => { p with datas := p.datas ++ [Eng.recordOf v pth] })
            (fun p => rfl), hproj]
          rfl
        have hres2 : ∀ q ∈ Eng.pathsOf rest, Eng.isfile fsys q = true :=
          fun q hq => hres q (by rw [hpc]; exact List.mem_cons_of_mem _ hq)
        rw [hstep, hone,
          ih (Eng.updProj db pid (fun p =>
            { p with datas := p.datas ++ [Eng.recordOf v pth] }))
            (created ++ [pth])
            { proj with datas := proj.datas ++ [Eng.recordOf v pth] }
            hnd2 hproj2 hres2]
        rw [hpc, hrc]
        rw [updProj_comp db pid
          (fun p => { p with datas := p.datas ++ [Eng.recordOf v pth] })
          (fun p => { p with datas := p.datas ++ Eng.recordsOf rest })
          (fun p => rfl)]
        rw [updProj_congr db pid _
          (fun p => { p with datas :=
            p.datas ++ (Eng.recordOf v pth :: Eng.recordsOf rest) })
          (fun p _ _ => by
            show ({ p with datas :=
                (p.datas ++ [Eng.recordOf v pth]) ++ Eng.recordsOf rest }
                : Eng.ProjectRec)
              = { p with datas :=
                p.datas ++ (Eng.recordOf v pth :: Eng.recordsOf rest) }
            rw [List.append_assoc]
            rfl)]
        rw [List.append_assoc]
        rfl

theorem pids_updProj (db : Eng.DB) (pid : Nat)
    (f : Eng.ProjectRec → Eng.ProjectRec) (hf : ∀ p, (f p).pid = p.pid) :
    (Eng.updProj db pid f).projects.map (fun p => p.pid)
      = db.projects.map (fun p => p.pid) := by
  unfold Eng.updProj
  exact pids_map_upd db.projects pid f hf

theorem handle_job_eq
    (hloads : String → Except String Eng.HDoc) (fsys : Eng.FSys)
    (opts : Eng.Options) (db : Eng.DB) (proj : Eng.ProjectRec) (doc : Eng.HDoc)
    (hadm : db.admins = true) (hadd : opts.add = true)
    (hjson : (opts.json == "") = false) (htmpl : (opts.template == "") = false)
    (hproj : Eng.getProj db opts.pid = some proj)
    (hf1 : Eng.isfile fsys opts.json = true)
    (hf2 : Eng.isfile fsys opts.template = true)
    (hparse : hloads (Eng.fileText fsys opts.json) = .ok doc)
    (hnoconf : proj.analyses.any (fun a => a.name == Eng.nameOf doc) = false)
    (hcjob : opts.cjob = true) :
    Eng.handle hloads fsys opts db
      = Eng.jobWrap opts (Eng.analysisOf fsys opts doc).name
          (Eng.ingest_loop fsys opts.pid
            (Eng.updProj (Eng.afterUsage opts db) opts.pid
              (fun p => { p with analyses :=
                  p.analyses ++ [Eng.analysisOf fsys opts doc] }))
            [] doc) := by
  have hpr2 : Eng.getProj (Eng.afterUsage opts db) opts.pid
      = some { proj with usage := Eng.optUsage opts } := by
    unfold Eng.afterUsage
    rw [getProj_updProj db opts.pid
      (fun p => { p with usage := Eng.optUsage opts }) (fun p => rfl), hproj]
    rfl
  have hnc2 : ({ proj with usage := Eng.optUsage opts } : Eng.ProjectRec).analyses.any
      (fun a => a.name == Eng.nameOf doc) = false := hnoconf
  rw [handle_reach hloads fsys opts db proj doc hadm hadd hjson htmpl hproj hf1 hf2 hparse]
  rw [create_analysis_reduce (Eng.afterUsage opts db) opts.pid
    (Eng.fileText fsys opts.json) (Eng.summaryOf doc)
    (Eng.fileText fsys opts.template) (Eng.nameOf doc) (Eng.textOf doc)
    (Eng.optUsage opts) { proj with usage := Eng.optUsage opts } hpr2 hnc2]
  rw [hcjob]
  rfl

theorem updProj_comp4 (db : Eng.DB) (pid : Nat)
    (f1 f2 f3 f4 : Eng.ProjectRec → Eng.ProjectRec)
    (h1 : ∀ p, (f1 p).pid = p.pid) (h2 : ∀ p, (f2 p).pid = p.pid)
    (h3 : ∀ p, (f3 p).pid = p.pid) :
    Eng.updProj (Eng.updProj (Eng.updProj (Eng.updProj db pid f1) pid f2) pid f3) pid f4
      = Eng.updProj db pid (fun p => f4 (f3 (f2 (f1 p)))) := by
  rw [updProj_comp db pid f1 f2 h1]
  rw [updProj_comp db pid (fun p => f2 (f1 p)) f3 (fun p => (h2 (f1 p)).trans (h1 p))]
  rw [updProj_comp db pid (fun p => f3 (f2 (f1 p))) f4
    (fun p => (h3 (f2 (f1 p))).trans ((h2 (f1 p)).trans (h1 p)))]

theorem handle_job_ok_final
    (hloads : String → Except String Eng.HDoc) (fsys : Eng.FSys)
    (opts : Eng.Options) (db : Eng.DB) (proj : Eng.ProjectRec) (doc : Eng.HDoc)
    (hadm : db.admins = true) (hadd : opts.add = true)
    (hjson : (opts.json == "") = false) (htmpl : (opts.template == "") = false)
    (hproj : Eng.getProj db opts.pid = some proj)
    (hf1 : Eng.isfile fsys opts.json = true)
    (hf2 : Eng.isfile fsys opts.template = true)
    (hparse : hloads (Eng.fileText fsys opts.json) = .ok doc)
    (hnoconf : proj.analyses.any (fun a => a.name == Eng.nameOf doc) = false)
    (hcjob : opts.cjob = true)
    (hnd : (db.projects.map (fun p => p.pid)).Nodup)
    (hres : ∀ q ∈ Eng.pathsOf doc, Eng.isfile fsys q = true) :
    Eng.handle hloads fsys opts db
      = (.ok, Eng.updProj db opts.pid (fun p =>
          { p with usage := Eng.optUsage opts,
                   analyses := p.analyses ++ [Eng.analysisOf fsys opts doc],
                   datas := p.datas ++ Eng.recordsOf doc,
                   jobs := p.jobs ++
                     [{ analysis_name := (Eng.analysisOf fsys opts doc).name,
                        data_fnames := [] ++ Eng.pathsOf doc,
                        usage := Eng.optUsage opts }] })) := by
  have hnd1 : (((Eng.updProj (Eng.afterUsage opts db) opts.pid
      (fun p => { p with analyses :=
          p.analyses ++ [Eng.analysisOf fsys opts doc] })).projects.map
        (fun p => p.pid)).Nodup) := by
    rw [pids_updProj (Eng.afterUsage opts db) opts.pid
      (fun p => { p with analyses := p.analyses ++ [Eng.analysisOf fsys opts doc] })
      (fun p => rfl)]
    unfold Eng.afterUsage
    rw [pids_updProj db opts.pid
      (fun p => { p with usage := Eng.optUsage opts }) (fun p => rfl)]
    exact hnd
  have hproj1 : Eng.getProj (Eng.updProj (Eng.afterUsage opts db) opts.pid
      (fun p => { p with analyses :=
          p.analyses ++ [Eng.analysisOf fsys opts doc] })) opts.pid
      = some { proj with
               usage := Eng.optUsage opts,
               analyses := proj.analyses ++ [Eng.analysisOf fsys opts doc] } := by
    rw [getProj_updProj (Eng.afterUsage opts db) opts.pid
      (fun p => { p with analyses := p.analyses ++ [Eng.analysisOf fsys opts doc] })
      (fun p => rfl)]
    unfold Eng.afterUsage
    rw [getProj_updProj db opts.pid
      (fun p => { p with usage := Eng.optUsage opts }) (fun p => rfl), hproj]
    rfl
  rw [handle_job_eq hloads fsys opts db proj doc hadm hadd hjson htmpl hproj
    hf1 hf2 hparse hnoconf hcjob]
  rw [ingest_loop_ok fsys opts.pid doc
    (Eng.updProj (Eng.afterUsage opts db) opts.pid
      (fun p => { p with analyses := p.analyses ++ [Eng.analysisOf fsys opts doc] }))
    []
    { proj with
      usage := Eng.optUsage opts,
      analyses := proj.analyses ++ [Eng.analysisOf fsys opts doc] }
    hnd1 hproj1 hres]
  simp only [Eng.jobWrap]
  unfold Eng.create_job
  unfold Eng.afterUsage
  rw [updProj_comp4 db opts.pid
    (fun p => { p with usage := Eng.optUsage opts })
    (fun p => { p with analyses := p.analyses ++ [Eng.analysisOf fsys opts doc] })
    (fun p => { p with datas := p.datas ++ Eng.recordsOf doc })
    (fun p => { p with jobs := p.jobs ++
        [{ analysis_name := (Eng.analysisOf fsys opts doc).name,
           data_fnames := [] ++ Eng.pathsOf doc,
           usage := Eng.optUsage opts }] })
    (fun p => rfl) (fun p => rfl) (fun p => rfl)]

/-- Claim C7 counterexample: the loop at analysis.py lines 107 to 113 does
not exclude the settings section, so a settings object carrying a path
attribute also becomes a Data record: this document yields two Data
records where the claim (exactly the non-settings fields with a path)
predicts one. -/
theorem c7_settings_not_excluded_cex :
    (Eng.datasOf (Eng.handle (fun _ => Except.ok Scen.c7Doc)
        Scen.tFsys Scen.tOpts Scen.tDB).2 1).map (fun d => d.fname)
      = ["/s.txt", "/data/a.txt"]
    ∧ ¬ ((Eng.datasOf (Eng.handle (fun _ => Except.ok Scen.c7Doc)
        Scen.tFsys Scen.tOpts Scen.tDB).2 1).map (fun d => d.fname)
      = ["/data/a.txt"]) := by
  refine ⟨by decide, by decide⟩

/-- Claim C7 as amended: with job creation requested, exactly the
top-level fields of the document, the settings section included, that
carry a nonempty path attribute are resolved into Data records in
document order, each with the remaining attributes of its field attached
as metadata; a field lacking a path attribute produces no Data record and
is not an error, and the created Job is bound to exactly the backing
paths so resolved. -/
theorem c7_path_fields_create_data
    (hloads : String → Except String Eng.HDoc) (fsys : Eng.FSys)
    (opts : Eng.Options) (db : Eng.DB) (proj : Eng.ProjectRec) (doc : Eng.HDoc)
    (hadm : db.admins = true) (hadd : opts.add = true)
    (hjson : (opts.json == "") = false) (htmpl : (opts.template == "") = false)
    (hproj : Eng.getProj db opts.pid = some proj)
    (hf1 : Eng.isfile fsys opts.json = true)
    (hf2 : Eng.isfile fsys opts.template = true)
    (hparse : hloads (Eng.fileText fsys opts.json) = .ok doc)
    (hnoconf : proj.analyses.any (fun a => a.name == Eng.nameOf doc) = false)
    (hcjob : opts.cjob = true)
    (hnd : (db.projects.map (fun p => p.pid)).Nodup)
    (hres : ∀ q ∈ Eng.pathsOf doc, Eng.isfile fsys q = true) :
    (Eng.handle hloads fsys opts db).1 = .ok
    ∧ Eng.datasOf (Eng.handle hloads fsys opts db).2 opts.pid
        = Eng.datasOf db opts.pid ++ Eng.recordsOf doc
    ∧ Eng.jobsOf (Eng.handle hloads fsys opts db).2 opts.pid
        = Eng.jobsOf db opts.pid ++
            [{ analysis_name := Eng.nameOf doc,
               data_fnames := Eng.pathsOf doc,
               usage := Eng.optUsage opts }] := by
  have hfin := handle_job_ok_final hloads fsys opts db proj doc hadm hadd hjson
    htmpl hproj hf1 hf2 hparse hnoconf hcjob hnd hres
  refine ⟨by rw [hfin], ?_, ?_⟩
  · rw [hfin]
    unfold Eng.datasOf
    rw [getProj_updProj db opts.pid
      (fun p => { p with usage := Eng.optUsage opts,
                         analyses := p.analyses ++ [Eng.analysisOf fsys opts doc],
                         datas := p.datas ++ Eng.recordsOf doc,
                         jobs := p.jobs ++
                           [{ analysis_name := (Eng.analysisOf fsys opts doc).name,
                              data_fnames := [] ++ Eng.pathsOf doc,
                              usage := Eng.optUsage opts }] })
      (fun p => rfl), hproj]
    rfl
  · rw [hfin]
    unfold Eng.jobsOf
    rw [getProj_updProj db opts.pid
      (fun p => { p with usage := Eng.optUsage opts,
                         analyses := p.analyses ++ [Eng.analysisOf fsys opts doc],
                         datas := p.datas ++ Eng.recordsOf doc,
                         jobs := p.jobs ++
                           [{ analysis_name := (Eng.analysisOf fsys opts doc).name,
                              data_fnames := [] ++ Eng.pathsOf doc,
                              usage := Eng.optUsage opts }] })
      (fun p => rfl), hproj]
    rfl

/-- Witness for the amended claim C7: the concrete document with a
settings path, one typed field with a path, and one field without a path
creates exactly the records of recordsOf (two here, none for the pathless
field) and one Job bound to exactly those backing paths. -/
theorem c7_path_fields_create_data_witness :
    (Eng.handle (fun _ => Except.ok Scen.c7Doc) Scen.tFsys Scen.tOpts Scen.tDB).1 = .ok
    ∧ Eng.datasOf (Eng.handle (fun _ => Except.ok Scen.c7Doc)
        Scen.tFsys Scen.tOpts Scen.tDB).2 1
        = Eng.datasOf Scen.tDB 1 ++ Eng.recordsOf Scen.c7Doc
    ∧ Eng.jobsOf (Eng.handle (fun _ => Except.ok Scen.c7Doc)
        Scen.tFsys Scen.tOpts Scen.tDB).2 1
        = Eng.jobsOf Scen.tDB 1 ++
            [{ analysis_name := Eng.nameOf Scen.c7Doc,
               data_fnames := Eng.pathsOf Scen.c7Doc,
               usage := Eng.optUsage Scen.tOpts }] :=
  c7_path_fields_create_data (fun _ => Except.ok Scen.c7Doc) Scen.tFsys
    Scen.tOpts Scen.tDB
    { pid := 1, pname := "P", owner := "adm", usage := 2,
      analyses := [], datas := [], jobs := [] } Scen.c7Doc
    rfl rfl rfl rfl rfl rfl rfl rfl rfl rfl (by decide) (by decide)

/-- Claim C9: a specification field with a resolvable path whose declared
data_type name is not in the fixed registry does not fail ingestion: the
run returns normally and the Data record created for it carries the
unknown classification. -/
theorem c9_unknown_type_classified
    (hloads : String → Except String Eng.HDoc) (fsys : Eng.FSys)
    (opts : Eng.Options) (db : Eng.DB) (proj : Eng.ProjectRec) (doc : Eng.HDoc)
    (k p t : String) (v : Eng.HField)
    (hadm : db.admins = true) (hadd : opts.add = true)
    (hjson : (opts.json == "") = false) (htmpl : (opts.template == "") = false)
    (hproj : Eng.getProj db opts.pid = some proj)
    (hf1 : Eng.isfile fsys opts.json = true)
    (hf2 : Eng.isfile fsys opts.template = true)
    (hparse : hloads (Eng.fileText fsys opts.json) = .ok doc)
    (hnoconf : proj.analyses.any (fun a => a.name == Eng.nameOf doc) = false)
    (hcjob : opts.cjob = true)
    (hnd : (db.projects.map (fun p => p.pid)).Nodup)
    (hres : ∀ q ∈ Eng.pathsOf doc, Eng.isfile fsys q = true)
    (hfield : (k, v) ∈ doc) (hfp : Eng.fieldPath v = some p)
    (hdt : Eng.hget v "data_type" = some t) (hreg : Eng.lookupDT t = none) :
    (Eng.handle hloads fsys opts db).1 = .ok
    ∧ Eng.recordOf v p ∈ Eng.datasOf (Eng.handle hloads fsys opts db).2 opts.pid
    ∧ (Eng.recordOf v p).dtype = .unknown := by
  have hfin := handle_job_ok_final hloads fsys opts db proj doc hadm hadd hjson
    htmpl hproj hf1 hf2 hparse hnoconf hcjob hnd hres
  refine ⟨by rw [hfin], ?_, ?_⟩
  · rw [hfin]
    unfold Eng.datasOf
    rw [getProj_updProj db opts.pid
      (fun p => { p with usage := Eng.optUsage opts,
                         analyses := p.analyses ++ [Eng.analysisOf fsys opts doc],
                         datas := p.datas ++ Eng.recordsOf doc,
                         jobs := p.jobs ++
                           [{ analysis_name := (Eng.analysisOf fsys opts doc).name,
                              data_fnames := [] ++ Eng.pathsOf doc,
                              usage := Eng.optUsage opts }] })
      (fun p => rfl), hproj]
    show Eng.recordOf v p ∈ proj.datas ++ Eng.recordsOf doc
    apply List.mem_append_right
    apply List.mem_filterMap.mpr
    refine ⟨(k, v), hfield, ?_⟩
    show (Eng.fieldPath v).map (Eng.recordOf v) = some (Eng.recordOf v p)
    rw [hfp]
    rfl
  · show (Eng.plainData p ((Eng.hget v "data_type").bind Eng.lookupDT)).dtype
      = .unknown
    rw [hdt]
    show (Eng.plainData p (Eng.lookupDT t)).dtype = .unknown
    rw [hreg]
    rfl

/-- Witness for claim C9: the declared type name weird is not in the
registry; the run succeeds and the record is classified unknown. -/
theorem c9_unknown_type_witness :
    (Eng.handle (fun _ => Except.ok Scen.c9Doc) Scen.tFsys Scen.tOpts Scen.tDB).1 = .ok
    ∧ Eng.recordOf { attrs := [("path", "/data/a.txt"), ("data_type", "weird")] }
        "/data/a.txt"
        ∈ Eng.datasOf (Eng.handle (fun _ => Except.ok Scen.c9Doc)
            Scen.tFsys Scen.tOpts Scen.tDB).2 1
    ∧ (Eng.recordOf
        { attrs := [("path", "/data/a.txt"), ("data_type", "weird")] }
        "/data/a.txt").dtype = .unknown :=
  c9_unknown_type_classified (fun _ => Except.ok Scen.c9Doc) Scen.tFsys
    Scen.tOpts Scen.tDB
    { pid := 1, pname := "P", owner := "adm", usage := 2,
      analyses := [], datas := [], jobs := [] } Scen.c9Doc
    "f1" "/data/a.txt" "weird"
    { attrs := [("path", "/data/a.txt"), ("data_type", "weird")] }
    rfl rfl rfl rfl rfl rfl rfl rfl rfl rfl (by decide) (by decide)
    (by decide) rfl rfl rfl

theorem create_data_err (fsys : Eng.FSys) (db : Eng.DB) (pid : Nat)
    (fname : String) (dt : Option Nat)
    (h : Eng.isfile fsys fname = false) :
    Eng.create_data fsys db pid fname dt
      = .error (.other ("FileNotFoundError: " ++ fname)) := by
  unfold Eng.create_data
  rw [h]
  rfl

theorem ingest_step_eq (fsys : Eng.FSys) (pid : Nat) (db : Eng.DB)
    (created : List String) (k : String) (v : Eng.HField)
    (rest : List (String × Eng.HField)) (pth : String) (proj : Eng.ProjectRec)
    (hnd : (db.projects.map (fun p => p.pid)).Nodup)
    (hproj : Eng.getProj db pid = some proj)
    (hp : Eng.hget v "path" = some pth)
    (hpe : ¬ ((pth == "") = true))
    (hfile : Eng.isfile fsys pth = true) :
    Eng.ingest_loop fsys pid db created ((k, v) :: rest)
      = Eng.ingest_loop fsys pid
          (Eng.updProj db pid (fun p =>
            { p with datas := p.datas ++ [Eng.recordOf v pth] }))
          (created ++ [pth]) rest := by
  have hstep : Eng.ingest_loop fsys pid db created ((k, v) :: rest)
      = Eng.ingest_loop fsys pid
          (Eng.fill_dict
            (Eng.updProj db pid (fun p =>
              { p with datas := p.datas ++
                  [Eng.plainData pth ((Eng.hget v "data_type").bind Eng.lookupDT)] }))
            pid proj.datas.length v)
          (created ++ [pth]) rest := by
    simp only [Eng.ingest_loop, hp]
    rw [if_neg hpe,
      create_data_reduce fsys db pid pth
        ((Eng.hget v "data_type").bind Eng.lookupDT) proj hproj hfile]
  have hone : Eng.fill_dict
        (Eng.updProj db pid (fun p =>
          { p with datas := p.datas ++
              [Eng.plainData pth ((Eng.hget v "data_type").bind Eng.lookupDT)] }))
        pid proj.datas.length v
      = Eng.updProj db pid (fun p =>
          { p with datas := p.datas ++ [Eng.recordOf v pth] }) := by
    unfold Eng.fill_dict
    rw [updProj_comp db pid
      (fun p =>
        { p with datas := p.datas ++
            [Eng.plainData pth ((Eng.hget v "data_type").bind Eng.lookupDT)] })
      (fun p =>
        { p with datas := Eng.listModify p.datas proj.datas.length (Eng.metaFill v) })
      (fun p => rfl)]
    apply updProj_congr
    intro p hpmem hppid
    rw [mem_pid_unique db.projects pid proj hnd hproj p hpmem hppid]
    show ({ proj with
            datas := Eng.listModify
              (proj.datas ++
                [Eng.plainData pth ((Eng.hget v "data_type").bind Eng.lookupDT)])
              proj.datas.length (Eng.metaFill v) }
        : Eng.ProjectRec)
      = { proj with datas := proj.datas ++ [Eng.recordOf v pth] }
    rw [listModify_append]
    rfl
  rw [hstep, hone]

theorem ingest_loop_err (fsys : Eng.FSys) (pid : Nat) (q0 : String) :
    ∀ (fields : List (String × Eng.HField)) (db : Eng.DB)
      (created : List String) (proj : Eng.ProjectRec),
      (db.projects.map (fun p => p.pid)).Nodup →
      Eng.getProj db pid = some proj →
      (Eng.pathsOf fields).find? (fun q => !(Eng.isfile fsys q)) = some q0 →
      (Eng.ingest_loop fsys pid db created fields).2
          = .error (.other ("FileNotFoundError: " ++ q0))
      ∧ Eng.jobsOf (Eng.ingest_loop fsys pid db created fields).1 pid
          = Eng.jobsOf db pid := by
  intro fields
  induction fields with
  | nil =>
    intro db created proj hnd hproj hfb
    exact absurd hfb (by simp [Eng.pathsOf])
  | cons kv rest ih =>
    obtain ⟨k, v⟩ := kv
    intro db created proj hnd hproj hfb
    cases hp : Eng.hget v "path" with
    | none =>
      have hfp : Eng.fieldPath v = none := by
        unfold Eng.fieldPath
        rw [hp]
      have hpc : Eng.pathsOf ((k, v) :: rest) = Eng.pathsOf rest := by
        unfold Eng.pathsOf
        simp [List.filterMap_cons, hfp]
      have hloop : Eng.ingest_loop fsys pid db created ((k, v) :: rest)
          = Eng.ingest_loop fsys pid db created rest := by
        simp only [Eng.ingest_loop, hp]
      rw [hloop]
      rw [hpc] at hfb
      exact ih db created proj hnd hproj hfb
    | some pth =>
      by_cases hpe : (pth == "") = true
      · have hfp : Eng.fieldPath v = none := by
          unfold Eng.fieldPath
          simp only [hp]
          rw [if_pos hpe]
        have hpc : Eng.pathsOf ((k, v) :: rest) = Eng.pathsOf rest := by
          unfold Eng.pathsOf
          simp [List.filterMap_cons, hfp]
        have hloop : Eng.ingest_loop fsys pid db created ((k, v) :: rest)
            = Eng.ingest_loop fsys pid db created rest := by
          simp only [Eng.ingest_loop, hp]
          rw [if_pos hpe]
        rw [hloop]
        rw [hpc] at hfb
        exact ih db created proj hnd hproj hfb
      · have hfp : Eng.fieldPath v = some pth := by
          unfold Eng.fieldPath
          simp only [hp]
          rw [if_neg hpe]
        have hpc : Eng.pathsOf ((k, v) :: rest) = pth :: Eng.pathsOf rest := by
          unfold Eng.pathsOf
          simp [List.filterMap_cons, hfp]
        rw [hpc] at hfb
        rw [List.find?_cons] at hfb
        cases hgood : Eng.isfile fsys pth with
        | true =>
          simp only [hgood, Bool.not_true] at hfb
          have hrec := ih
            (Eng.updProj db pid (fun p =>
              { p with datas := p.datas ++ [Eng.recordOf v pth] }))
            (created ++ [pth])
            { proj with datas := proj.datas ++ [Eng.recordOf v pth] }
            (by
              rw [pids_updProj db pid
                (fun p => { p with datas := p.datas ++ [Eng.recordOf v pth] })
                (fun p => rfl)]
              exact hnd)
            (by
              rw [getProj_updProj db pid
                (fun p => { p with datas := p.datas ++ [Eng.recordOf v pth] })
                (fun p => rfl), hproj]
              rfl)
            hfb
          rw [ingest_step_eq fsys pid db created k v rest pth proj hnd hproj hp hpe hgood]
          refine ⟨hrec.1, ?_⟩
          rw [hrec.2]
          exact jobsOf_updProj db pid
            (fun p => { p with datas := p.datas ++ [Eng.recordOf v pth] })
            (fun p => rfl) (fun p => rfl)
        | false =>
          simp only [hgood, Bool.not_false] at hfb
          have hq0 : some pth = some q0 := hfb
          have hq0b : q0 = pth := by
            injection hq0 with h2
            exact h2.symm
          have hloop : Eng.ingest_loop fsys pid db created ((k, v) :: rest)
              = (db, .error (.other ("FileNotFoundError: " ++ pth))) := by
            simp only [Eng.ingest_loop, hp]
            rw [if_neg hpe,
              create_data_err fsys db pid pth
                ((Eng.hget v "data_type").bind Eng.lookupDT) hgood]
          rw [hloop, hq0b]
          exact ⟨rfl, rfl⟩

/-- Claim C3 counterexample: with job creation requested and one
unresolvable path, the run terminates with an uncaught file error, one
partially created Data record sits in the store and no Job exists, but the
only report the caller receives is the exception message, which does not
mention the created Data record: the partially created Data records are
not reported to the caller. -/
theorem c3_partial_data_not_reported_cex :
    (Eng.handle (fun _ => Except.ok Scen.c3Doc) Scen.tFsys Scen.tOpts Scen.tDB).1
        = .crashed "FileNotFoundError: /data/b.txt"
    ∧ (Eng.datasOf (Eng.handle (fun _ => Except.ok Scen.c3Doc)
        Scen.tFsys Scen.tOpts Scen.tDB).2 1).map (fun d => d.fname)
        = ["/data/a.txt"]
    ∧ Eng.jobsOf (Eng.handle (fun _ => Except.ok Scen.c3Doc)
        Scen.tFsys Scen.tOpts Scen.tDB).2 1 = []
    ∧ Eng.mentions
        ((Eng.handle (fun _ => Except.ok Scen.c3Doc)
          Scen.tFsys Scen.tOpts Scen.tDB).1).report "/data/a.txt" = false := by
  refine ⟨by decide, by decide, by decide, by decide⟩

/-- Claim C3 as amended: when job creation is requested and a referenced
path fails to resolve, no Job record is created and the operation as a
whole fails, surfacing as an uncaught error naming only the first
unresolved path; the Data records created before the failure remain in
the store but are not reported to the caller (only the exception message
surfaces). -/
theorem c3_unresolved_no_job
    (hloads : String → Except String Eng.HDoc) (fsys : Eng.FSys)
    (opts : Eng.Options) (db : Eng.DB) (proj : Eng.ProjectRec) (doc : Eng.HDoc)
    (q0 : String)
    (hadm : db.admins = true) (hadd : opts.add = true)
    (hjson : (opts.json == "") = false) (htmpl : (opts.template == "") = false)
    (hproj : Eng.getProj db opts.pid = some proj)
    (hf1 : Eng.isfile fsys opts.json = true)
    (hf2 : Eng.isfile fsys opts.template = true)
    (hparse : hloads (Eng.fileText fsys opts.json) = .ok doc)
    (hnoconf : proj.analyses.any (fun a => a.name == Eng.nameOf doc) = false)
    (hcjob : opts.cjob = true)
    (hnd : (db.projects.map (fun p => p.pid)).Nodup)
    (hfb : (Eng.pathsOf doc).find? (fun q => !(Eng.isfile fsys q)) = some q0) :
    (Eng.handle hloads fsys opts db).1
        = .crashed ("FileNotFoundError: " ++ q0)
    ∧ Eng.jobsOf (Eng.handle hloads fsys opts db).2 opts.pid
        = Eng.jobsOf db opts.pid := by
  have hnd1 : (((Eng.updProj (Eng.afterUsage opts db) opts.pid
      (fun p => { p with analyses :=
          p.analyses ++ [Eng.analysisOf fsys opts doc] })).projects.map
        (fun p => p.pid)).Nodup) := by
    rw [pids_updProj (Eng.afterUsage opts db) opts.pid
      (fun p => { p with analyses := p.analyses ++ [Eng.analysisOf fsys opts doc] })
      (fun p => rfl)]
    unfold Eng.afterUsage
    rw [pids_updProj db opts.pid
      (fun p => { p with usage := Eng.optUsage opts }) (fun p => rfl)]
    exact hnd
  have hproj1 : Eng.getProj (Eng.updProj (Eng.afterUsage opts db) opts.pid
      (fun p => { p with analyses :=
          p.analyses ++ [Eng.analysisOf fsys opts doc] })) opts.pid
      = some { proj with
               usage := Eng.optUsage opts,
               analyses := proj.analyses ++ [Eng.analysisOf fsys opts doc] } := by
    rw [getProj_updProj (Eng.afterUsage opts db) opts.pid
      (fun p => { p with analyses := p.analyses ++ [Eng.analysisOf fsys opts doc] })
      (fun p => rfl)]
    unfold Eng.afterUsage
    rw [getProj_updProj db opts.pid
      (fun p => { p with usage := Eng.optUsage opts }) (fun p => rfl), hproj]
    rfl
  have hl := ingest_loop_err fsys opts.pid q0 doc
    (Eng.updProj (Eng.afterUsage opts db) opts.pid
      (fun p => { p with analyses := p.analyses ++ [Eng.analysisOf fsys opts doc] }))
    []
    { proj with
      usage := Eng.optUsage opts,
      analyses := proj.analyses ++ [Eng.analysisOf fsys opts doc] }
    hnd1 hproj1 hfb
  rw [handle_job_eq hloads fsys opts db proj doc hadm hadd hjson htmpl hproj
    hf1 hf2 hparse hnoconf hcjob]
  rcases hre : Eng.ingest_loop fsys opts.pid
      (Eng.updProj (Eng.afterUsage opts db) opts.pid
        (fun p => { p with analyses :=
            p.analyses ++ [Eng.analysisOf fsys opts doc] }))
      [] doc with ⟨db2, res2⟩
  rw [hre] at hl
  have hres2 : res2 = .error (.other ("FileNotFoundError: " ++ q0)) := hl.1
  rw [hres2]
  constructor
  · rfl
  · show Eng.jobsOf db2 opts.pid = Eng.jobsOf db opts.pid
    have hj2 : Eng.jobsOf db2 opts.pid
        = Eng.jobsOf (Eng.updProj (Eng.afterUsage opts db) opts.pid
            (fun p => { p with analyses :=
                p.analyses ++ [Eng.analysisOf fsys opts doc] })) opts.pid := hl.2
    rw [hj2]
    rw [jobsOf_updProj (Eng.afterUsage opts db) opts.pid
      (fun p => { p with analyses := p.analyses ++ [Eng.analysisOf fsys opts doc] })
      (fun p => rfl) (fun p => rfl)]
    unfold Eng.afterUsage
    rw [jobsOf_updProj db opts.pid
      (fun p => { p with usage := Eng.optUsage opts })
      (fun p => rfl) (fun p => rfl)]

/-- Witness for the amended claim C3: on the concrete two-field document
whose second path does not resolve, the run crashes naming that path and
the target Project still has no Job. -/
theorem c3_unresolved_no_job_witness :
    (Eng.handle (fun _ => Except.ok Scen.c3Doc) Scen.tFsys Scen.tOpts Scen.tDB).1
        = .crashed ("FileNotFoundError: " ++ "/data/b.txt")
    ∧ Eng.jobsOf (Eng.handle (fun _ => Except.ok Scen.c3Doc)
        Scen.tFsys Scen.tOpts Scen.tDB).2 1 = Eng.jobsOf Scen.tDB 1 :=
  c3_unresolved_no_job (fun _ => Except.ok Scen.c3Doc) Scen.tFsys Scen.tOpts
    Scen.tDB
    { pid := 1, pname := "P", owner := "adm", usage := 2,
      analyses := [], datas := [], jobs := [] } Scen.c3Doc "/data/b.txt"
    rfl rfl rfl rfl rfl rfl rfl rfl rfl rfl (by decide) (by decide)

theorem map_scalars_usage (l : List Eng.ProjectRec) (pid u : Nat) :
    (l.map (fun p => if p.pid == pid then { p with usage := u } else p)).map
        Eng.scalars
      = l.map (fun p =>
          if p.pid == pid then (p.pid, p.pname, p.owner, u) else Eng.scalars p) := by
  induction l with
  | nil => rfl
  | cons q rest ih =>
    simp only [List.map_cons]
    by_cases hq : (q.pid == pid) = true
    · rw [if_pos hq, if_pos hq, ih]
      rfl
    · rw [if_neg hq, if_neg hq, ih]

theorem create_analysis_ok_scalars {db0 db1 : Eng.DB} {pid : Nat}
    {jt s tpl nm tx : String} {u : Nat} {a : Eng.Analysis}
    (h : Eng.create_analysis db0 pid jt s tpl nm tx u = .ok (db1, a)) :
    db1.projects.map Eng.scalars = db0.projects.map Eng.scalars := by
  unfold Eng.create_analysis at h
  cases hg : Eng.getProj db0 pid with
  | none =>
    simp only [hg] at h
    exact Except.noConfusion h
  | some pr =>
    simp only [hg] at h
    by_cases hc : (pr.analyses.any (fun x => x.name == nm)) = true
    · rw [if_pos hc] at h
      exact Except.noConfusion h
    · rw [if_neg hc] at h
      injection h with h3
      rw [Prod.mk.injEq] at h3
      obtain ⟨h4, h5⟩ := h3
      rw [← h4]
      exact scalars_updProj db0 pid _ (fun p => rfl)

theorem create_data_ok_scalars {fsys : Eng.FSys} {db db1 : Eng.DB}
    {pid : Nat} {fname : String} {dt : Option Nat} {idx : Nat}
    (h : Eng.create_data fsys db pid fname dt = .ok (db1, idx)) :
    db1.projects.map Eng.scalars = db.projects.map Eng.scalars := by
  unfold Eng.create_data at h
  by_cases hf : (Eng.isfile fsys fname) = true
  · rw [if_pos hf] at h
    injection h with h3
    rw [Prod.mk.injEq] at h3
    obtain ⟨h4, h5⟩ := h3
    rw [← h4]
    exact scalars_updProj db pid _ (fun p => rfl)
  · rw [if_neg hf] at h
    exact Except.noConfusion h

theorem ingest_loop_scalars (fsys : Eng.FSys) (pid : Nat) :
    ∀ (fields : List (String × Eng.HField)) (db : Eng.DB) (created : List String),
      ((Eng.ingest_loop fsys pid db created fields).1).projects.map Eng.scalars
        = db.projects.map Eng.scalars := by
  intro fields
  induction fields with
  | nil => intro db created; rfl
  | cons kv rest ih =>
    obtain ⟨k, v⟩ := kv
    intro db created
    cases hp : Eng.hget v "path" with
    | none =>
      have hloop : Eng.ingest_loop fsys pid db created ((k, v) :: rest)
          = Eng.ingest_loop fsys pid db created rest := by
        simp only [Eng.ingest_loop, hp]
      rw [hloop]
      exact ih db created
    | some pth =>
      by_cases hpe : (pth == "") = true
      · have hloop : Eng.ingest_loop fsys pid db created ((k, v) :: rest)
            = Eng.ingest_loop fsys pid db created rest := by
          simp only [Eng.ingest_loop, hp]
          rw [if_pos hpe]
        rw [hloop]
        exact ih db created
      · cases hcd : Eng.create_data fsys db pid pth
            ((Eng.hget v "data_type").bind Eng.lookupDT) with
        | error e =>
          have hloop : Eng.ingest_loop fsys pid db created ((k, v) :: rest)
              = (db, .error e) := by
            simp only [Eng.ingest_loop, hp]
            rw [if_neg hpe, hcd]
          rw [hloop]
        | ok pr =>
          obtain ⟨db1, idx⟩ := pr
          have hloop : Eng.ingest_loop fsys pid db created ((k, v) :: rest)
              = Eng.ingest_loop fsys pid (Eng.fill_dict db1 pid idx v)
                  (created ++ [pth]) rest := by
            simp only [Eng.ingest_loop, hp]
            rw [if_neg hpe, hcd]
          rw [hloop, ih]
          have h1 : (Eng.fill_dict db1 pid idx v).projects.map Eng.scalars
              = db1.projects.map Eng.scalars := by
            unfold Eng.fill_dict
            exact scalars_updProj db1 pid _ (fun p => rfl)
          rw [h1]
          exact create_data_ok_scalars hcd

/-- Claim C10: every run of the command with the add action, an admin
present, both file options set and a valid project id overwrites the
target Project usage field with the value derived from the analysis_usage
option and changes no other scalar field of any Project row (id, name,
owner and the usage of other rows are untouched), and the derived value
ignores the project_usage option entirely. -/
theorem c10_usage_overwrite
    (hloads : String → Except String Eng.HDoc) (fsys : Eng.FSys)
    (opts : Eng.Options) (db : Eng.DB) (v : String)
    (hadm : db.admins = true) (hadd : opts.add = true)
    (hjson : (opts.json == "") = false) (htmpl : (opts.template == "") = false)
    (hvalid : (Eng.getProj db opts.pid).isSome = true) :
    (Eng.handle hloads fsys opts db).2.projects.map Eng.scalars
        = db.projects.map (fun p =>
            if p.pid == opts.pid then (p.pid, p.pname, p.owner, Eng.optUsage opts)
            else Eng.scalars p)
    ∧ Eng.optUsage { opts with project_usage := v } = Eng.optUsage opts := by
  refine ⟨?_, rfl⟩
  obtain ⟨proj, hproj⟩ := Option.isSome_iff_exists.mp hvalid
  have hAU : (Eng.afterUsage opts db).projects.map Eng.scalars
      = db.projects.map (fun p =>
          if p.pid == opts.pid then (p.pid, p.pname, p.owner, Eng.optUsage opts)
          else Eng.scalars p) := by
    unfold Eng.afterUsage Eng.updProj
    exact map_scalars_usage db.projects opts.pid (Eng.optUsage opts)
  by_cases h1 : Eng.isfile fsys opts.json = true
  case neg =>
    have h1f : Eng.isfile fsys opts.json = false := by
      cases hx : Eng.isfile fsys opts.json with
      | true => exact absurd hx h1
      | false => rfl
    have hh : Eng.handle hloads fsys opts db
        = (.logged "No file found for --json", Eng.afterUsage opts db) := by
      unfold Eng.handle
      rw [hadm, hadd, hjson, htmpl, hproj, h1f]
      rfl
    rw [hh]
    exact hAU
  case pos =>
    by_cases h2 : Eng.isfile fsys opts.template = true
    case neg =>
      have h2f : Eng.isfile fsys opts.template = false := by
        cases hx : Eng.isfile fsys opts.template with
        | true => exact absurd hx h2
        | false => rfl
      have hh : Eng.handle hloads fsys opts db
          = (.logged "No file found for --template", Eng.afterUsage opts db) := by
        unfold Eng.handle
        rw [hadm, hadd, hjson, htmpl, hproj, h1, h2f]
        rfl
      rw [hh]
      exact hAU
    case pos =>
      cases hld : hloads (Eng.fileText fsys opts.json) with
      | error e =>
        have hh : Eng.handle hloads fsys opts db
            = (.logged ("error leading the template: " ++ e),
               Eng.afterUsage opts db) := by
          unfold Eng.handle
          rw [hadm, hadd, hjson, htmpl, hproj, h1, h2, hld]
          rfl
        rw [hh]
        exact hAU
      | ok doc =>
        have hrr := handle_reach hloads fsys opts db proj doc hadm hadd hjson
          htmpl hproj h1 h2 hld
        rw [hrr]
        cases hca : Eng.create_analysis (Eng.afterUsage opts db) opts.pid
            (Eng.fileText fsys opts.json) (Eng.summaryOf doc)
            (Eng.fileText fsys opts.template) (Eng.nameOf doc)
            (Eng.textOf doc) (Eng.optUsage opts) with
        | error exc =>
          cases exc with
          | keyError m =>
            show (Eng.afterUsage opts db).projects.map Eng.scalars = _
            exact hAU
          | other m =>
            show (Eng.afterUsage opts db).projects.map Eng.scalars = _
            exact hAU
        | ok pr =>
          obtain ⟨db1, a⟩ := pr
          have hdb1 : db1.projects.map Eng.scalars
              = (Eng.afterUsage opts db).projects.map Eng.scalars :=
            create_analysis_ok_scalars hca
          by_cases hcj : opts.cjob = true
          case pos =>
            rw [hcj]
            show (Eng.jobWrap opts a.name
                (Eng.ingest_loop fsys opts.pid db1 [] doc)).2.projects.map
                Eng.scalars = _
            rcases hre : Eng.ingest_loop fsys opts.pid db1 [] doc with ⟨db2, res2⟩
            have hsc2 : db2.projects.map Eng.scalars
                = db1.projects.map Eng.scalars := by
              have hl := ingest_loop_scalars fsys opts.pid doc db1 []
              rw [hre] at hl
              exact hl
            cases res2 with
            | ok created =>
              show (Eng.create_job db2 opts.pid a.name created
                  (Eng.optUsage opts)).projects.map Eng.scalars = _
              have hcj2 : (Eng.create_job db2 opts.pid a.name created
                  (Eng.optUsage opts)).projects.map Eng.scalars
                  = db2.projects.map Eng.scalars := by
                unfold Eng.create_job
                exact scalars_updProj db2 opts.pid _ (fun p => rfl)
              rw [hcj2, hsc2, hdb1]
              exact hAU
            | error exc =>
              cases exc with
              | keyError m =>
                show db2.projects.map Eng.scalars = _
                rw [hsc2, hdb1]
                exact hAU
              | other m =>
                show db2.projects.map Eng.scalars = _
                rw [hsc2, hdb1]
                exact hAU
          case neg =>
            have hcjf : opts.cjob = false := by
              cases hx : opts.cjob with
              | true => exact absurd hx hcj
              | false => rfl
            rw [hcjf]
            show db1.projects.map Eng.scalars = _
            rw [hdb1]
            exact hAU

/-- Witness for claim C10: on the concrete store the single project row
keeps its id, name and owner and gets the usage derived from the
analysis_usage option, and the derived value is unchanged when the
project_usage option changes. -/
theorem c10_usage_overwrite_witness :
    (Eng.handle (fun _ => Except.ok Scen.c5Doc) Scen.tFsys Scen.tOpts
        Scen.tDB).2.projects.map Eng.scalars
      = Scen.tDB.projects.map (fun p =>
          if p.pid == 1 then (p.pid, p.pname, p.owner, Eng.optUsage Scen.tOpts)
          else Eng.scalars p)
    ∧ Eng.optUsage { Scen.tOpts with project_usage := "User" }
        = Eng.optUsage Scen.tOpts :=
  c10_usage_overwrite (fun _ => Except.ok Scen.c5Doc) Scen.tFsys Scen.tOpts
    Scen.tDB "User" rfl rfl rfl rfl rfl
